import Mathlib

/-
Verification of the GLBModel viewer (src/js/GLBModel.js and the key-swap
variant in src/unnamed/part_000).

The development has two layers.

First, a numeric layer: the frame computation at part_000 lines 205-214
(GLBModel.js lines 191-200) works on JS numbers, so it is embedded over a
type of JS numeric values (a finite rational, an infinity of either sign,
or NaN).  Rounding of finite values is not modelled; the claims concern
the exact expressions the code computes.

Second, an operational layer: the loader callbacks, the progress updates
and the key-swap handlers are single-threaded callback code, so they are
embedded as a step function on an explicit state, driven by a list of
events (key-down, key-up, load completion, load failure).  The state also
carries observation-only logs (issued loads, progress reports, removals,
and the slot mesh captured at issue time) that record what the callbacks
did without influencing them.
-/

namespace GLB

/-- JS numeric values as used by the viewer: a finite rational, an
infinity of either sign, or NaN. -/
inductive JSNum where
  | fin : ℚ → JSNum
  | posInf : JSNum
  | negInf : JSNum
  | nan : JSNum
deriving DecidableEq

/-- JS Math.max on two values (NaN propagates, as in Math.max). -/
def maxJ : JSNum → JSNum → JSNum
  | .nan, _ => .nan
  | _, .nan => .nan
  | .posInf, _ => .posInf
  | _, .posInf => .posInf
  | .negInf, b => b
  | a, .negInf => a
  | .fin a, .fin b => .fin (max a b)

/-- JS division.  Division of a nonzero finite value by (unsigned) zero
yields the infinity carrying the sign of the dividend, as for the +0 the
code can produce from a bounding-box size. -/
def divJ : JSNum → JSNum → JSNum
  | .nan, _ => .nan
  | _, .nan => .nan
  | .posInf, .posInf => .nan
  | .posInf, .negInf => .nan
  | .negInf, .posInf => .nan
  | .negInf, .negInf => .nan
  | .posInf, .fin b => if 0 ≤ b then .posInf else .negInf
  | .negInf, .fin b => if 0 ≤ b then .negInf else .posInf
  | .fin _, .posInf => .fin 0
  | .fin _, .negInf => .fin 0
  | .fin a, .fin b =>
      if b = 0 then (if a = 0 then .nan else if 0 < a then .posInf else .negInf)
      else .fin (a / b)

/-- JS multiplication. -/
def mulJ : JSNum → JSNum → JSNum
  | .nan, _ => .nan
  | _, .nan => .nan
  | .fin a, .fin b => .fin (a * b)
  | .posInf, .fin b => if b = 0 then .nan else if 0 < b then .posInf else .negInf
  | .fin a, .posInf => if a = 0 then .nan else if 0 < a then .posInf else .negInf
  | .negInf, .fin b => if b = 0 then .nan else if 0 < b then .negInf else .posInf
  | .fin a, .negInf => if a = 0 then .nan else if 0 < a then .negInf else .posInf
  | .posInf, .posInf => .posInf
  | .posInf, .negInf => .negInf
  | .negInf, .posInf => .negInf
  | .negInf, .negInf => .posInf

/-- JS subtraction. -/
def subJ : JSNum → JSNum → JSNum
  | .nan, _ => .nan
  | _, .nan => .nan
  | .fin a, .fin b => .fin (a - b)
  | .posInf, .posInf => .nan
  | .negInf, .negInf => .nan
  | .posInf, _ => .posInf
  | .negInf, _ => .negInf
  | .fin _, .posInf => .negInf
  | .fin _, .negInf => .posInf

/-- JS Number.isFinite. -/
def JSNum.isFinite : JSNum → Bool
  | .fin _ => true
  | _ => false

/-- A 3-component vector of JS numbers (THREE.Vector3). -/
structure Vec3J where
  x : JSNum
  y : JSNum
  z : JSNum
deriving DecidableEq

/-- Vector3.multiplyScalar k, also the effect of Object3D.scale.setScalar k
on the points of the object. -/
def scaleVec (k : JSNum) (v : Vec3J) : Vec3J :=
  ⟨mulJ v.x k, mulJ v.y k, mulJ v.z k⟩

/-- Vector3.sub, componentwise. -/
def sub3 (v w : Vec3J) : Vec3J :=
  ⟨subJ v.x w.x, subJ v.y w.y, subJ v.z w.z⟩

/-- Math.max(size.x, size.y, size.z), as in part_000 line 208. -/
def maxDim3 (s : Vec3J) : JSNum := maxJ (maxJ s.x s.y) s.z

/-- An axis-aligned bounding box, recorded by its size and center
(Box3.getSize and Box3.getCenter), after the base rotation was applied. -/
structure Box where
  size : Vec3J
  center : Vec3J
deriving DecidableEq

/-- The Normalization Frame: the global scale and the global offset
(this._globalScale and this._globalOffset). -/
abbrev Frame := JSNum × Vec3J

/-- part_000 lines 205-214 (GLBModel.js lines 191-197): scale is
2 / maxDim and offset is center.multiplyScalar(scale). -/
def computeFrame (b : Box) : Frame :=
  let scale := divJ (.fin 2) (maxDim3 b.size)
  (scale, scaleVec scale b.center)

/-- The net placement of a world point p of a model rooted at the origin
after model.scale.setScalar(scale) and model.position.sub(offset). -/
def applyFrame (f : Frame) (p : Vec3J) : Vec3J :=
  sub3 (scaleVec f.1 p) f.2


/-- The kind of an issued load: the base asset (paths[0]), a secondary
base part (paths[i], i from 1), or a key-swap asset for a key code. -/
inductive LoadKind where
  | base : LoadKind
  | sec : Nat → LoadKind
  | key : String → LoadKind
deriving DecidableEq

/-- Whether a kind is a secondary base-part load. -/
def LoadKind.isSec : LoadKind → Bool
  | .sec _ => true
  | _ => false

/-- Whether a kind is a key-swap load. -/
def LoadKind.isKey : LoadKind → Bool
  | .key _ => true
  | _ => false

/-- A key slot (this.keyModels[code]): the two configured paths, the
currently resident mesh (as an identifier), and the pressed flag. -/
structure Slot where
  offPath : String
  onPath : String
  mesh : Option Nat
  pressed : Bool
deriving DecidableEq

/-- An object resident in the scene, tagged with the kind of load that
produced it. -/
structure SceneObj where
  id : Nat
  kind : LoadKind
deriving DecidableEq

/-- An in-flight (or logged) load request.  slotMeshAtIssue is an
observation-only record of the slot mesh that was resident when the load
was issued; the callbacks never read it. -/
structure Pending where
  id : Nat
  kind : LoadKind
  path : String
  slotMeshAtIssue : Option Nat
deriving DecidableEq

/-- Observation-only record of a completed load: the mesh it created,
its kind and path, the asset box, the frame that was applied to it
(none when this._globalScale was still undefined), the rotation and
shadow flag applied, and whether it carried animation clips. -/
structure Placed where
  mesh : Nat
  kind : LoadKind
  path : String
  box : Box
  applied : Option Frame
  rot : Vec3J
  shadow : Bool
  anims : Bool
deriving DecidableEq

/-- A loaded gltf as far as the callbacks inspect it: the bounding box of
its scene (after the base rotation) and whether it has animations. -/
structure Asset where
  box : Box
  anims : Bool
deriving DecidableEq

/-- The configuration consumed by GLBModel.init: the ordered asset paths
(base first), the key-code to off/on path map, the base rotation, and the
shadow flag. -/
structure KeyPair where
  offPath : String
  onPath : String
deriving DecidableEq

structure Config where
  basePath : String
  restPaths : List String
  keyModels : List (String × KeyPair)
  modelRotation : Vec3J
  enabledShadow : Bool
deriving DecidableEq

/-- The mutable session state of GLBModel, plus observation-only logs. -/
structure St where
  basePath : String
  restPaths : List String
  modelRotation : Vec3J
  enabledShadow : Bool
  slots : List (String × Slot)
  scene : List SceneObj
  mixers : List Nat
  loaded : Nat
  frame : Option Frame
  frameWrites : Nat
  pending : List Pending
  issuedLog : List Pending
  placed : List Placed
  progressLog : List Nat
  removalLog : List (Nat × Nat)
  overlayHidden : Bool
  initKeysDone : Bool
  nextMesh : Nat
  nextLoad : Nat
  baseDone : Bool
deriving DecidableEq

/-- The number of configured asset paths (paths.length). -/
def St.total (st : St) : Nat := 1 + st.restPaths.length

/-- this.keyModels[code]: the slot entry for the code. -/
def lookupSlot : List (String × Slot) → String → Option Slot
  | [], _ => none
  | p :: t, c => if p.1 = c then some p.2 else lookupSlot t c

/-- Update the slot entry (entries) for a code in place. -/
def updateSlot : List (String × Slot) → String → (Slot → Slot) →
    List (String × Slot)
  | [], _, _ => []
  | p :: t, c, f => (if p.1 = c then (p.1, f p.2) else p) :: updateSlot t c f

/-- The slot mesh currently resident for a code. -/
def slotMesh (st : St) (c : String) : Option Nat :=
  (lookupSlot st.slots c).bind Slot.mesh

/-- Observation: the slot mesh resident when a load of this kind is
issued (meaningful for key loads only). -/
def snapshotFor (st : St) : LoadKind → Option Nat
  | .key c => slotMesh st c
  | _ => none

/-- loader.load(path, cb, undefined, err): registers an in-flight load. -/
def issue (st : St) (k : LoadKind) (p : String) : St :=
  let r : Pending := ⟨st.nextLoad, k, p, snapshotFor st k⟩
  { st with pending := st.pending ++ [r], issuedLog := st.issuedLog ++ [r],
            nextLoad := st.nextLoad + 1 }

/-- Issue a list of loads in order. -/
def issueList (st : St) : List (LoadKind × String) → St
  | [] => st
  | (k, p) :: rest => issueList (issue st k p) rest

/-- Math.round((loaded / total) * 100) on natural counts (round half up,
as Math.round does for the nonnegative values that occur here). -/
def round100 (k n : Nat) : Nat := (200 * k + n) / (2 * n)

/-- part_000 lines 277-287 (_updateProgress): report the percentage; when
loaded equals total, hide the overlay and run _initKeyModels, which
issues the off-state load of every key slot in order. -/
def updateProgress (st : St) : St :=
  if st.loaded = st.total then
    issueList
      { st with progressLog := st.progressLog ++ [round100 st.loaded st.total], overlayHidden := true, initKeysDone := true }
      (st.slots.map (fun p => (LoadKind.key p.1, p.2.offPath)))
  else
    { st with progressLog := st.progressLog ++ [round100 st.loaded st.total] }

/-- The placement part of the base success callback (part_000 lines
197-234): compute and store the Normalization Frame, place the rotated,
scaled, offset, shadow-flagged model, bind its animations, count it. -/
def basePlacedSt (st : St) (r : Pending) (a : Asset) : St :=
  { st with
    frame := some (computeFrame a.box),
    frameWrites := st.frameWrites + 1,
    scene := st.scene ++ [⟨st.nextMesh, .base⟩],
    placed := st.placed ++
      [⟨st.nextMesh, .base, r.path, a.box, some (computeFrame a.box),
        st.modelRotation, st.enabledShadow, a.anims⟩],
    mixers := if a.anims then st.mixers ++ [st.nextMesh] else st.mixers,
    nextMesh := st.nextMesh + 1,
    loaded := st.loaded + 1,
    baseDone := true }

/-- The success callback for paths[0] (part_000 lines 197-271): place the
base asset, update progress, and only then issue the loads of
paths[1..]. -/
def completeBase (st : St) (r : Pending) (a : Asset) : St :=
  issueList (updateProgress (basePlacedSt st r a))
    ((st.restPaths.enum).map (fun p => (LoadKind.sec (p.1 + 1), p.2)))

/-- The placement part of a secondary success callback (part_000 lines
240-264): apply the stored rotation/scale/offset, place, animate,
count. -/
def secPlacedSt (st : St) (r : Pending) (a : Asset) : St :=
  { st with
    scene := st.scene ++ [⟨st.nextMesh, r.kind⟩],
    placed := st.placed ++
      [⟨st.nextMesh, r.kind, r.path, a.box, st.frame, st.modelRotation,
        st.enabledShadow, a.anims⟩],
    mixers := if a.anims then st.mixers ++ [st.nextMesh] else st.mixers,
    nextMesh := st.nextMesh + 1,
    loaded := st.loaded + 1 }

/-- The success callback for a secondary paths[i] (part_000 lines
240-266): place, then update progress. -/
def completeSec (st : St) (r : Pending) (a : Asset) : St :=
  updateProgress (secPlacedSt st r a)

/-- part_000 lines 326-328: remove the slot mesh resident at completion
time, if any. -/
def keyRemove (st : St) (r : Pending) (slot : Slot) : St :=
  match slot.mesh with
  | some p =>
    { st with scene := st.scene.filter (fun o => o.id ≠ p),
              removalLog := st.removalLog ++ [(r.id, p)] }
  | none => st

/-- part_000 lines 330-356: place the new key mesh with the stored frame,
record it as the slot mesh, bind animations. -/
def keyPlace (st : St) (r : Pending) (c : String) (a : Asset) : St :=
  { st with
    scene := st.scene ++ [⟨st.nextMesh, .key c⟩],
    placed := st.placed ++
      [⟨st.nextMesh, .key c, r.path, a.box, st.frame, st.modelRotation,
        st.enabledShadow, a.anims⟩],
    slots := updateSlot st.slots c (fun s => { s with mesh := some st.nextMesh }),
    mixers := if a.anims then st.mixers ++ [st.nextMesh] else st.mixers,
    nextMesh := st.nextMesh + 1 }

/-- The success callback of _loadKeyModel (part_000 lines 325-357): read
the slot mesh resident now, remove it from the scene if present, place
the new mesh.  The loaded counter is not touched. -/
def completeKey (st : St) (r : Pending) (c : String) (a : Asset) : St :=
  match lookupSlot st.slots c with
  | none => st
  | some slot => keyPlace (keyRemove st r slot) r c a

/-- The external events: key edges delivered by the window listeners, and
the completion or failure of an in-flight load (the scheduler may deliver
them in any order). -/
inductive Ev where
  | keydown : String → Ev
  | keyup : String → Ev
  | complete : Nat → Asset → Ev
  | fail : Nat → Ev

/-- One event of the single-threaded callback loop.  keydown/keyup follow
the listeners of _setupKeyModels (part_000 lines 298-311): edge-triggered
on the pressed flag, then _swapKeyModel issues the load of the target
path.  complete dispatches to the matching success callback and consumes
the request; fail (the error callback) only consumes it. -/
def step (st : St) : Ev → St
  | .keydown c =>
    match lookupSlot st.slots c with
    | some slot =>
      if slot.pressed then st
      else
        let sl1 := updateSlot st.slots c (fun s => { s with pressed := true })
        issue { st with slots := sl1 } (.key c) slot.onPath
    | none => st
  | .keyup c =>
    match lookupSlot st.slots c with
    | some slot =>
      if slot.pressed then
        let sl1 := updateSlot st.slots c (fun s => { s with pressed := false })
        issue { st with slots := sl1 } (.key c) slot.offPath
      else st
    | none => st
  | .complete j a =>
    match st.pending.find? (fun r => r.id = j) with
    | none => st
    | some r =>
      let st1 := { st with pending := st.pending.filter (fun q => q.id ≠ j) }
      match r.kind with
      | .base => completeBase st1 r a
      | .sec _ => completeSec st1 r a
      | .key c => completeKey st1 r c a
  | .fail j => { st with pending := st.pending.filter (fun q => q.id ≠ j) }

/-- GLBModel.init: build the key slots from the configuration, then
loadModels issues the load of paths[0] (and nothing else). -/
def init (cfg : Config) : St :=
  let st0 : St := {
    basePath := cfg.basePath,
    restPaths := cfg.restPaths,
    modelRotation := cfg.modelRotation,
    enabledShadow := cfg.enabledShadow,
    slots := cfg.keyModels.map
      (fun p => (p.1, ⟨p.2.offPath, p.2.onPath, none, false⟩)),
    scene := [], mixers := [], loaded := 0, frame := none, frameWrites := 0,
    pending := [], issuedLog := [], placed := [], progressLog := [],
    removalLog := [], overlayHidden := false, initKeysDone := false,
    nextMesh := 0, nextLoad := 0, baseDone := false }
  issue st0 .base cfg.basePath

/-- Run a sequence of events from a state. -/
def run (st : St) (evs : List Ev) : St := evs.foldl step st

/-- The meshes resident in the scene for a key slot. -/
def residents (st : St) (c : String) : List Nat :=
  (st.scene.filter (fun o => o.kind = LoadKind.key c)).map SceneObj.id

/-- The number of base or secondary (non-key) in-flight loads. -/
def countBS (l : List Pending) : Nat :=
  (l.filter (fun r => !r.kind.isKey)).length

/-- The number of in-flight base loads. -/
def countBase (l : List Pending) : Nat :=
  (l.filter (fun r => r.kind = LoadKind.base)).length

/-- The residents of a key slot in a scene list. -/
def resOf (scene : List SceneObj) (c : String) : List Nat :=
  (scene.filter (fun o => o.kind = LoadKind.key c)).map SceneObj.id

/-- The one-element or empty list holding an optional slot mesh. -/
def meshList : Option Nat → List Nat
  | none => []
  | some m => [m]

/-- The inductive invariant of the loader layer: the Normalization Frame
is written exactly when the base completes, the progress log matches the
loaded count, and the loaded count plus the in-flight base/secondary
loads never exceeds the number of configured paths. -/
structure InvA (st : St) : Prop where
  preBase : st.baseDone = false →
    st.frame = none ∧ st.frameWrites = 0 ∧ st.loaded = 0 ∧
    st.overlayHidden = false ∧ st.initKeysDone = false ∧
    st.progressLog = [] ∧
    (∀ r ∈ st.issuedLog, r.kind.isSec = false) ∧
    (∀ e ∈ st.placed, e.kind.isKey = true ∧ e.applied = none) ∧
    (∀ r ∈ st.pending, r.kind.isKey = false →
      r.kind = LoadKind.base ∧ r.id = 0)
  postBase : st.baseDone = true →
    st.frameWrites = 1 ∧ countBase st.pending = 0 ∧
    ∃ f pre e0 post,
      st.frame = some f ∧ st.placed = pre ++ e0 :: post ∧
      e0.kind = LoadKind.base ∧ e0.applied = some f ∧
      f = computeFrame e0.box ∧
      (∀ e ∈ pre, e.kind.isKey = true ∧ e.applied = none) ∧
      (∀ e ∈ post, e.applied = some f) ∧
      1 ≤ st.loaded
  secApplied : ∀ e ∈ st.placed, e.kind.isSec = true → e.applied = st.frame
  count_eq : st.loaded = (st.placed.filter (fun e => !e.kind.isKey)).length
  progress_eq : st.progressLog =
    (List.range st.loaded).map (fun k => round100 (k + 1) st.total)
  overlay_eq : st.overlayHidden = decide (st.loaded = st.total)
  initKeys_eq : st.initKeysDone = st.overlayHidden
  load_bound : st.loaded + countBS st.pending ≤ st.total
  preBS : st.baseDone = false → countBS st.pending ≤ 1
  initKeys_issued : st.initKeysDone = true →
    ∀ p ∈ st.slots, ∃ r ∈ st.issuedLog,
      r.kind = LoadKind.key p.1 ∧ r.path = p.2.offPath
  placed_rot : ∀ e ∈ st.placed,
    e.rot = st.modelRotation ∧ e.shadow = st.enabledShadow
  anims_mixed : ∀ e ∈ st.placed, e.anims = true → e.mesh ∈ st.mixers

/-- The inductive invariant of the scene layer: scene identifiers are
distinct and below the allocator, and the meshes resident for a key slot
are exactly the slot's recorded mesh. -/
structure InvB (st : St) : Prop where
  nodup : (st.scene.map SceneObj.id).Nodup
  lt : ∀ o ∈ st.scene, o.id < st.nextMesh
  res : ∀ c, residents st c = meshList (slotMesh st c)

/-- A session whose base load is gone without having resolved: the base
is not done and no base or secondary load is in flight. -/
def DeadBase (st : St) : Prop :=
  st.baseDone = false ∧ countBS st.pending = 0

/-- The claimed capture discipline: every key-swap removal removes the
mesh that was resident for the slot when that load was issued. -/
def CaptureAtIssue (st : St) : Prop :=
  ∀ pr ∈ st.removalLog, ∀ r ∈ st.issuedLog, r.id = pr.1 →
    r.slotMeshAtIssue = some pr.2

instance (st : St) : Decidable (CaptureAtIssue st) := by
  unfold CaptureAtIssue
  infer_instance

section ConcreteFixtures

/-- A unit-cube asset centered at the origin (frame scale 1, offset 0). -/
def boxU : Box := ⟨⟨.fin 2, .fin 2, .fin 2⟩, ⟨.fin 0, .fin 0, .fin 0⟩⟩

def assetU : Asset := ⟨boxU, false⟩

/-- A degenerate asset: empty bounding box. -/
def assetDeg : Asset := ⟨⟨⟨.fin 0, .fin 0, .fin 0⟩, ⟨.fin 0, .fin 0, .fin 0⟩⟩,
  false⟩

def zeroRot : Vec3J := ⟨.fin 0, .fin 0, .fin 0⟩

/-- A configuration with one base part and one key slot. -/
def cfgKey : Config :=
  { basePath := "b", restPaths := [], keyModels := [("k", ⟨"A", "B"⟩)],
    modelRotation := zeroRot, enabledShadow := false }

/-- A configuration with a base part, one secondary part and one key
slot. -/
def cfgFull : Config :=
  { basePath := "b", restPaths := ["w"], keyModels := [("k", ⟨"A", "B"⟩)],
    modelRotation := zeroRot, enabledShadow := false }

/-- A configuration with a base part and two secondary parts. -/
def cfgSecs : Config :=
  { basePath := "b", restPaths := ["w", "u"], keyModels := [],
    modelRotation := zeroRot, enabledShadow := false }

end ConcreteFixtures

lemma max_mul_nonneg (a b c : ℚ) (hc : 0 ≤ c) :
    max (a * c) (b * c) = max a b * c := by
  rcases le_total a b with h | h
  · rw [max_eq_right h, max_eq_right (mul_le_mul_of_nonneg_right h hc)]
  · rw [max_eq_left h, max_eq_left (mul_le_mul_of_nonneg_right h hc)]

/-- C1: for a base asset whose post-rotation bounding box has finite size
s and center c with maxDim = max(s.x, s.y, s.z) positive, the computed
scale is exactly 2 / maxDim and the computed offset is c scaled by that
factor, and applying the scale and subtracting the offset maps the box
center to the origin and the largest scaled dimension to 2. -/
theorem C1_normalization (sx sy sz cx cy cz m : ℚ)
    (hm : m = max (max sx sy) sz) (hpos : 0 < m) :
    computeFrame ⟨⟨.fin sx, .fin sy, .fin sz⟩, ⟨.fin cx, .fin cy, .fin cz⟩⟩ =
      (.fin (2 / m),
        ⟨.fin (cx * (2 / m)), .fin (cy * (2 / m)), .fin (cz * (2 / m))⟩) ∧
    applyFrame
        (computeFrame ⟨⟨.fin sx, .fin sy, .fin sz⟩, ⟨.fin cx, .fin cy, .fin cz⟩⟩)
        ⟨.fin cx, .fin cy, .fin cz⟩ = ⟨.fin 0, .fin 0, .fin 0⟩ ∧
    maxDim3 (scaleVec
        (computeFrame ⟨⟨.fin sx, .fin sy, .fin sz⟩, ⟨.fin cx, .fin cy, .fin cz⟩⟩).1
        ⟨.fin sx, .fin sy, .fin sz⟩) = .fin 2 := by
  subst hm
  have hne : max (max sx sy) sz ≠ 0 := ne_of_gt hpos
  have hk : (0 : ℚ) ≤ 2 / max (max sx sy) sz := by positivity
  refine ⟨?_, ?_, ?_⟩
  · simp [computeFrame, maxDim3, maxJ, divJ, hne, scaleVec, mulJ]
  · simp [computeFrame, applyFrame, maxDim3, maxJ, divJ, hne, scaleVec, mulJ,
      sub3, subJ]
  · simp only [computeFrame, maxDim3, maxJ, divJ, hne, if_false, scaleVec, mulJ]
    rw [max_mul_nonneg _ _ _ hk, max_mul_nonneg _ _ _ hk]
    rw [mul_comm, div_mul_cancel₀ _ hne]

/-- C1 witness: the theorem instantiated at a concrete box. -/
theorem C1_normalization_witness :
    computeFrame ⟨⟨.fin 1, .fin 2, .fin 4⟩, ⟨.fin 3, .fin 0, .fin (-1)⟩⟩ =
      (.fin (2 / 4),
        ⟨.fin (3 * (2 / 4)), .fin (0 * (2 / 4)), .fin ((-1) * (2 / 4))⟩) ∧
    applyFrame
        (computeFrame ⟨⟨.fin 1, .fin 2, .fin 4⟩, ⟨.fin 3, .fin 0, .fin (-1)⟩⟩)
        ⟨.fin 3, .fin 0, .fin (-1)⟩ = ⟨.fin 0, .fin 0, .fin 0⟩ ∧
    maxDim3 (scaleVec
        (computeFrame ⟨⟨.fin 1, .fin 2, .fin 4⟩, ⟨.fin 3, .fin 0, .fin (-1)⟩⟩).1
        ⟨.fin 1, .fin 2, .fin 4⟩) = .fin 2 :=
  C1_normalization 1 2 4 3 0 (-1) 4 (by norm_num) (by norm_num)

section ListHelpers

variable {α : Type}

lemma length_filter_filter_le (p q : α → Bool) (l : List α) :
    ((l.filter q).filter p).length ≤ (l.filter p).length :=
  List.Sublist.length_le ((List.filter_sublist l).filter p)

lemma length_filter_filter_lt (p q : α → Bool) (l : List α) (r : α)
    (hr : r ∈ l) (hp : p r = true) (hq : q r = false) :
    ((l.filter q).filter p).length < (l.filter p).length := by
  obtain ⟨l1, l2, rfl⟩ := List.append_of_mem hr
  have h1 := length_filter_filter_le p q l1
  have h2 := length_filter_filter_le p q l2
  simp only [List.filter_append, List.filter_cons, hp, hq, if_pos, if_neg,
    Bool.false_eq_true, if_false, if_true, List.length_append,
    List.length_cons]
  omega

lemma filter_eq_nil_of (p : α → Bool) (l : List α)
    (h : ∀ a ∈ l, p a = false) : l.filter p = [] := by
  induction l with
  | nil => rfl
  | cons a t ih =>
    have ha := h a (List.mem_cons_self a t)
    simp only [List.filter_cons, ha, Bool.false_eq_true, if_false]
    exact ih (fun b hb => h b (List.mem_cons_of_mem a hb))

lemma one_le_length_filter (p : α → Bool) (l : List α) (r : α)
    (hr : r ∈ l) (hp : p r = true) : 1 ≤ (l.filter p).length := by
  have : r ∈ l.filter p := List.mem_filter.2 ⟨hr, hp⟩
  exact List.length_pos.2 (List.ne_nil_of_mem this)

end ListHelpers

section SlotHelpers

lemma lookup_update_self (l : List (String × Slot)) (c : String)
    (f : Slot → Slot) :
    lookupSlot (updateSlot l c f) c = (lookupSlot l c).map f := by
  induction l with
  | nil => rfl
  | cons a t ih =>
    by_cases h : a.1 = c
    · simp [lookupSlot, updateSlot, h]
    · simp [lookupSlot, updateSlot, h, ih]

lemma lookup_update_ne (l : List (String × Slot)) (c c' : String)
    (f : Slot → Slot) (h : ¬ c' = c) :
    lookupSlot (updateSlot l c f) c' = lookupSlot l c' := by
  induction l with
  | nil => rfl
  | cons a t ih =>
    by_cases ha : a.1 = c
    · have ha' : ¬ (a.1 = c') := fun e => h (e.symm.trans ha)
      have hcc : ¬ (c = c') := fun e => h e.symm
      simp [lookupSlot, updateSlot, ha, ha', hcc, ih]
    · simp only [updateSlot, if_neg ha, lookupSlot]
      by_cases hc : a.1 = c'
      · simp [hc]
      · simp [hc, ih]

lemma mem_updateSlot (l : List (String × Slot)) (c : String)
    (f : Slot → Slot) (p : String × Slot) (hp : p ∈ updateSlot l c f) :
    ∃ s, (p.1, s) ∈ l ∧ (p.2 = s ∨ p.2 = f s) := by
  induction l with
  | nil => cases hp
  | cons a t ih =>
    simp only [updateSlot, List.mem_cons] at hp
    rcases hp with hp | hp
    · by_cases h : a.1 = c
      · rw [if_pos h] at hp
        exact ⟨a.2, by rw [hp]; exact List.mem_cons_self a t,
          by rw [hp]; exact Or.inr rfl⟩
      · rw [if_neg h] at hp
        exact ⟨a.2, by rw [hp]; exact List.mem_cons_self a t,
          Or.inl (by rw [hp])⟩
    · obtain ⟨s, hs, he⟩ := ih hp
      exact ⟨s, List.mem_cons_of_mem a hs, he⟩

end SlotHelpers

section IssueHelpers

@[simp] lemma issue_scene (st : St) (k : LoadKind) (p : String) :
    (issue st k p).scene = st.scene := rfl

@[simp] lemma issue_slots (st : St) (k : LoadKind) (p : String) :
    (issue st k p).slots = st.slots := rfl

@[simp] lemma issue_placed (st : St) (k : LoadKind) (p : String) :
    (issue st k p).placed = st.placed := rfl

@[simp] lemma issue_loaded (st : St) (k : LoadKind) (p : String) :
    (issue st k p).loaded = st.loaded := rfl

@[simp] lemma issue_frame (st : St) (k : LoadKind) (p : String) :
    (issue st k p).frame = st.frame := rfl

@[simp] lemma issue_frameWrites (st : St) (k : LoadKind) (p : String) :
    (issue st k p).frameWrites = st.frameWrites := rfl

@[simp] lemma issue_baseDone (st : St) (k : LoadKind) (p : String) :
    (issue st k p).baseDone = st.baseDone := rfl

@[simp] lemma issue_overlay (st : St) (k : LoadKind) (p : String) :
    (issue st k p).overlayHidden = st.overlayHidden := rfl

@[simp] lemma issue_initKeys (st : St) (k : LoadKind) (p : String) :
    (issue st k p).initKeysDone = st.initKeysDone := rfl

@[simp] lemma issue_progressLog (st : St) (k : LoadKind) (p : String) :
    (issue st k p).progressLog = st.progressLog := rfl

@[simp] lemma issue_removalLog (st : St) (k : LoadKind) (p : String) :
    (issue st k p).removalLog = st.removalLog := rfl

@[simp] lemma issue_mixers (st : St) (k : LoadKind) (p : String) :
    (issue st k p).mixers = st.mixers := rfl

@[simp] lemma issue_nextMesh (st : St) (k : LoadKind) (p : String) :
    (issue st k p).nextMesh = st.nextMesh := rfl

@[simp] lemma issue_restPaths (st : St) (k : LoadKind) (p : String) :
    (issue st k p).restPaths = st.restPaths := rfl

@[simp] lemma issue_total (st : St) (k : LoadKind) (p : String) :
    (issue st k p).total = st.total := rfl

@[simp] lemma issue_modelRotation (st : St) (k : LoadKind) (p : String) :
    (issue st k p).modelRotation = st.modelRotation := rfl

@[simp] lemma issue_enabledShadow (st : St) (k : LoadKind) (p : String) :
    (issue st k p).enabledShadow = st.enabledShadow := rfl

lemma issue_pending (st : St) (k : LoadKind) (p : String) :
    (issue st k p).pending =
      st.pending ++ [⟨st.nextLoad, k, p, snapshotFor st k⟩] := rfl

lemma issue_issuedLog (st : St) (k : LoadKind) (p : String) :
    (issue st k p).issuedLog =
      st.issuedLog ++ [⟨st.nextLoad, k, p, snapshotFor st k⟩] := rfl

/-- issueList only extends pending, issuedLog and the load counter. -/
lemma issueList_eq (l : List (LoadKind × String)) : ∀ st : St,
    ∃ P I n, issueList st l =
      { st with pending := P, issuedLog := I, nextLoad := n } := by
  induction l with
  | nil => exact fun st => ⟨st.pending, st.issuedLog, st.nextLoad, rfl⟩
  | cons a rest ih =>
    intro st
    obtain ⟨P, I, n, h⟩ := ih (issue st a.1 a.2)
    exact ⟨P, I, n, h⟩

lemma issueList_scene (l : List (LoadKind × String)) (st : St) :
    (issueList st l).scene = st.scene := by
  obtain ⟨P, I, n, h⟩ := issueList_eq l st; rw [h]

lemma issueList_slots (l : List (LoadKind × String)) (st : St) :
    (issueList st l).slots = st.slots := by
  obtain ⟨P, I, n, h⟩ := issueList_eq l st; rw [h]

lemma issueList_placed (l : List (LoadKind × String)) (st : St) :
    (issueList st l).placed = st.placed := by
  obtain ⟨P, I, n, h⟩ := issueList_eq l st; rw [h]

lemma issueList_loaded (l : List (LoadKind × String)) (st : St) :
    (issueList st l).loaded = st.loaded := by
  obtain ⟨P, I, n, h⟩ := issueList_eq l st; rw [h]

lemma issueList_frame (l : List (LoadKind × String)) (st : St) :
    (issueList st l).frame = st.frame := by
  obtain ⟨P, I, n, h⟩ := issueList_eq l st; rw [h]

lemma issueList_frameWrites (l : List (LoadKind × String)) (st : St) :
    (issueList st l).frameWrites = st.frameWrites := by
  obtain ⟨P, I, n, h⟩ := issueList_eq l st; rw [h]

lemma issueList_baseDone (l : List (LoadKind × String)) (st : St) :
    (issueList st l).baseDone = st.baseDone := by
  obtain ⟨P, I, n, h⟩ := issueList_eq l st; rw [h]

lemma issueList_overlay (l : List (LoadKind × String)) (st : St) :
    (issueList st l).overlayHidden = st.overlayHidden := by
  obtain ⟨P, I, n, h⟩ := issueList_eq l st; rw [h]

lemma issueList_initKeys (l : List (LoadKind × String)) (st : St) :
    (issueList st l).initKeysDone = st.initKeysDone := by
  obtain ⟨P, I, n, h⟩ := issueList_eq l st; rw [h]

lemma issueList_progressLog (l : List (LoadKind × String)) (st : St) :
    (issueList st l).progressLog = st.progressLog := by
  obtain ⟨P, I, n, h⟩ := issueList_eq l st; rw [h]

lemma issueList_removalLog (l : List (LoadKind × String)) (st : St) :
    (issueList st l).removalLog = st.removalLog := by
  obtain ⟨P, I, n, h⟩ := issueList_eq l st; rw [h]

lemma issueList_mixers (l : List (LoadKind × String)) (st : St) :
    (issueList st l).mixers = st.mixers := by
  obtain ⟨P, I, n, h⟩ := issueList_eq l st; rw [h]

lemma issueList_nextMesh (l : List (LoadKind × String)) (st : St) :
    (issueList st l).nextMesh = st.nextMesh := by
  obtain ⟨P, I, n, h⟩ := issueList_eq l st; rw [h]

lemma issueList_restPaths (l : List (LoadKind × String)) (st : St) :
    (issueList st l).restPaths = st.restPaths := by
  obtain ⟨P, I, n, h⟩ := issueList_eq l st; rw [h]

lemma issueList_total (l : List (LoadKind × String)) (st : St) :
    (issueList st l).total = st.total := by
  unfold St.total; rw [issueList_restPaths]

lemma issueList_modelRotation (l : List (LoadKind × String)) (st : St) :
    (issueList st l).modelRotation = st.modelRotation := by
  obtain ⟨P, I, n, h⟩ := issueList_eq l st; rw [h]

lemma issueList_enabledShadow (l : List (LoadKind × String)) (st : St) :
    (issueList st l).enabledShadow = st.enabledShadow := by
  obtain ⟨P, I, n, h⟩ := issueList_eq l st; rw [h]

lemma issueList_issued_mono (l : List (LoadKind × String)) : ∀ (st : St)
    (r : Pending), r ∈ st.issuedLog → r ∈ (issueList st l).issuedLog := by
  induction l with
  | nil => exact fun st r h => h
  | cons a rest ih =>
    intro st r h
    exact ih (issue st a.1 a.2) r (by
      simp only [issue, List.mem_append]; exact Or.inl h)

lemma issueList_pending_mono (l : List (LoadKind × String)) : ∀ (st : St)
    (r : Pending), r ∈ st.pending → r ∈ (issueList st l).pending := by
  induction l with
  | nil => exact fun st r h => h
  | cons a rest ih =>
    intro st r h
    exact ih (issue st a.1 a.2) r (by
      simp only [issue, List.mem_append]; exact Or.inl h)

lemma issueList_issued_sub (l : List (LoadKind × String)) : ∀ (st : St)
    (r : Pending), r ∈ (issueList st l).issuedLog →
    r ∈ st.issuedLog ∨ (r.kind, r.path) ∈ l := by
  induction l with
  | nil => exact fun st r h => Or.inl h
  | cons a rest ih =>
    intro st r h
    rcases ih (issue st a.1 a.2) r h with h' | h'
    · simp only [issue, List.mem_append, List.mem_singleton] at h'
      rcases h' with h' | h'
      · exact Or.inl h'
      · right; rw [h']; exact List.mem_cons_self a rest
    · exact Or.inr (List.mem_cons_of_mem a h')

lemma issueList_pending_sub (l : List (LoadKind × String)) : ∀ (st : St)
    (r : Pending), r ∈ (issueList st l).pending →
    r ∈ st.pending ∨ (r.kind, r.path) ∈ l := by
  induction l with
  | nil => exact fun st r h => Or.inl h
  | cons a rest ih =>
    intro st r h
    rcases ih (issue st a.1 a.2) r h with h' | h'
    · simp only [issue, List.mem_append, List.mem_singleton] at h'
      rcases h' with h' | h'
      · exact Or.inl h'
      · right; rw [h']; exact List.mem_cons_self a rest
    · exact Or.inr (List.mem_cons_of_mem a h')

lemma issueList_issued_new (l : List (LoadKind × String)) : ∀ (st : St)
    (kp : LoadKind × String), kp ∈ l →
    ∃ r ∈ (issueList st l).issuedLog, r.kind = kp.1 ∧ r.path = kp.2 := by
  induction l with
  | nil => intro st kp h; cases h
  | cons a rest ih =>
    intro st kp h
    rcases List.mem_cons.1 h with rfl | h'
    · refine ⟨⟨st.nextLoad, kp.1, kp.2, snapshotFor st kp.1⟩, ?_, rfl, rfl⟩
      exact issueList_issued_mono rest (issue st kp.1 kp.2) _ (by
        simp [issue])
    · exact ih (issue st a.1 a.2) kp h'

lemma countBS_append_key (l : List Pending) (r : Pending)
    (h : r.kind.isKey = true) : countBS (l ++ [r]) = countBS l := by
  unfold countBS
  rw [List.filter_append]
  simp [h]

lemma countBase_append_not (l : List Pending) (r : Pending)
    (h : ¬ r.kind = LoadKind.base) : countBase (l ++ [r]) = countBase l := by
  unfold countBase
  rw [List.filter_append]
  simp [h]

lemma countBS_append_le (l : List Pending) (r : Pending) :
    countBS (l ++ [r]) ≤ countBS l + 1 := by
  unfold countBS
  rw [List.filter_append, List.length_append]
  have h : (List.filter (fun r => !r.kind.isKey) [r]).length ≤ 1 :=
    List.Sublist.length_le (List.filter_sublist _)
  omega

lemma issueList_countBS (l : List (LoadKind × String))
    (hl : ∀ kp ∈ l, (kp.1).isKey = true) : ∀ st : St,
    countBS (issueList st l).pending = countBS st.pending := by
  induction l with
  | nil => exact fun st => rfl
  | cons a rest ih =>
    obtain ⟨k, pth⟩ := a
    intro st
    show countBS (issueList (issue st k pth) rest).pending = _
    rw [ih (fun kp h => hl kp (List.mem_cons_of_mem _ h)) (issue st k pth)]
    exact countBS_append_key _ _ (hl (k, pth) (List.mem_cons_self _ rest))

lemma issueList_countBS_sec (l : List (LoadKind × String)) : ∀ st : St,
    countBS (issueList st l).pending ≤ countBS st.pending + l.length := by
  induction l with
  | nil => exact fun st => Nat.le_add_right _ _
  | cons a rest ih =>
    obtain ⟨k, pth⟩ := a
    intro st
    have h := ih (issue st k pth)
    have hb : countBS (issue st k pth).pending ≤ countBS st.pending + 1 :=
      countBS_append_le _ _
    show countBS (issueList (issue st k pth) rest).pending ≤ _
    simp only [List.length_cons]
    omega

lemma issueList_countBase (l : List (LoadKind × String))
    (hl : ∀ kp ∈ l, ¬ kp.1 = LoadKind.base) : ∀ st : St,
    countBase (issueList st l).pending = countBase st.pending := by
  induction l with
  | nil => exact fun st => rfl
  | cons a rest ih =>
    obtain ⟨k, pth⟩ := a
    intro st
    show countBase (issueList (issue st k pth) rest).pending = _
    rw [ih (fun kp h => hl kp (List.mem_cons_of_mem _ h)) (issue st k pth)]
    exact countBase_append_not _ _ (hl (k, pth) (List.mem_cons_self _ rest))

end IssueHelpers

section ProgressHelpers

lemma updateProgress_pos (st : St) (h : st.loaded = st.total) :
    updateProgress st = issueList
      { st with progressLog := st.progressLog ++ [round100 st.loaded st.total], overlayHidden := true, initKeysDone := true }
      (st.slots.map (fun p => (LoadKind.key p.1, p.2.offPath))) := by
  unfold updateProgress
  rw [if_pos h]

lemma updateProgress_neg (st : St) (h : ¬ st.loaded = st.total) :
    updateProgress st =
      { st with progressLog := st.progressLog ++ [round100 st.loaded st.total] } := by
  unfold updateProgress
  rw [if_neg h]

lemma updateProgress_scene (st : St) :
    (updateProgress st).scene = st.scene := by
  by_cases h : st.loaded = st.total
  · rw [updateProgress_pos st h, issueList_scene]
  · rw [updateProgress_neg st h]

lemma updateProgress_slots (st : St) :
    (updateProgress st).slots = st.slots := by
  by_cases h : st.loaded = st.total
  · rw [updateProgress_pos st h, issueList_slots]
  · rw [updateProgress_neg st h]

lemma updateProgress_placed (st : St) :
    (updateProgress st).placed = st.placed := by
  by_cases h : st.loaded = st.total
  · rw [updateProgress_pos st h, issueList_placed]
  · rw [updateProgress_neg st h]

lemma updateProgress_loaded (st : St) :
    (updateProgress st).loaded = st.loaded := by
  by_cases h : st.loaded = st.total
  · rw [updateProgress_pos st h, issueList_loaded]
  · rw [updateProgress_neg st h]

lemma updateProgress_frame (st : St) :
    (updateProgress st).frame = st.frame := by
  by_cases h : st.loaded = st.total
  · rw [updateProgress_pos st h, issueList_frame]
  · rw [updateProgress_neg st h]

lemma updateProgress_frameWrites (st : St) :
    (updateProgress st).frameWrites = st.frameWrites := by
  by_cases h : st.loaded = st.total
  · rw [updateProgress_pos st h, issueList_frameWrites]
  · rw [updateProgress_neg st h]

lemma updateProgress_baseDone (st : St) :
    (updateProgress st).baseDone = st.baseDone := by
  by_cases h : st.loaded = st.total
  · rw [updateProgress_pos st h, issueList_baseDone]
  · rw [updateProgress_neg st h]

lemma updateProgress_mixers (st : St) :
    (updateProgress st).mixers = st.mixers := by
  by_cases h : st.loaded = st.total
  · rw [updateProgress_pos st h, issueList_mixers]
  · rw [updateProgress_neg st h]

lemma updateProgress_nextMesh (st : St) :
    (updateProgress st).nextMesh = st.nextMesh := by
  by_cases h : st.loaded = st.total
  · rw [updateProgress_pos st h, issueList_nextMesh]
  · rw [updateProgress_neg st h]

lemma updateProgress_removalLog (st : St) :
    (updateProgress st).removalLog = st.removalLog := by
  by_cases h : st.loaded = st.total
  · rw [updateProgress_pos st h, issueList_removalLog]
  · rw [updateProgress_neg st h]

lemma updateProgress_restPaths (st : St) :
    (updateProgress st).restPaths = st.restPaths := by
  by_cases h : st.loaded = st.total
  · rw [updateProgress_pos st h, issueList_restPaths]
  · rw [updateProgress_neg st h]

lemma updateProgress_total (st : St) :
    (updateProgress st).total = st.total := by
  unfold St.total; rw [updateProgress_restPaths]

lemma updateProgress_modelRotation (st : St) :
    (updateProgress st).modelRotation = st.modelRotation := by
  by_cases h : st.loaded = st.total
  · rw [updateProgress_pos st h, issueList_modelRotation]
  · rw [updateProgress_neg st h]

lemma updateProgress_enabledShadow (st : St) :
    (updateProgress st).enabledShadow = st.enabledShadow := by
  by_cases h : st.loaded = st.total
  · rw [updateProgress_pos st h, issueList_enabledShadow]
  · rw [updateProgress_neg st h]

lemma updateProgress_progressLog (st : St) :
    (updateProgress st).progressLog =
      st.progressLog ++ [round100 st.loaded st.total] := by
  by_cases h : st.loaded = st.total
  · rw [updateProgress_pos st h, issueList_progressLog]
  · rw [updateProgress_neg st h]

lemma updateProgress_overlay (st : St) :
    (updateProgress st).overlayHidden =
      (st.overlayHidden || decide (st.loaded = st.total)) := by
  by_cases h : st.loaded = st.total
  · rw [updateProgress_pos st h, issueList_overlay]
    simp [h]
  · rw [updateProgress_neg st h]
    simp [h]

lemma updateProgress_initKeys (st : St) :
    (updateProgress st).initKeysDone =
      (st.initKeysDone || decide (st.loaded = st.total)) := by
  by_cases h : st.loaded = st.total
  · rw [updateProgress_pos st h, issueList_initKeys]
    simp [h]
  · rw [updateProgress_neg st h]
    simp [h]

lemma updateProgress_pending_sub (st : St) (r : Pending)
    (hr : r ∈ (updateProgress st).pending) :
    r ∈ st.pending ∨ r.kind.isKey = true := by
  by_cases h : st.loaded = st.total
  · rw [updateProgress_pos st h] at hr
    rcases issueList_pending_sub _ _ _ hr with h' | h'
    · exact Or.inl h'
    · rcases List.mem_map.1 h' with ⟨p, _, he⟩
      right
      have hk : r.kind = LoadKind.key p.1 := (congrArg Prod.fst he).symm
      rw [hk]; rfl
  · rw [updateProgress_neg st h] at hr
    exact Or.inl hr

lemma updateProgress_issued_mono (st : St) (r : Pending)
    (h : r ∈ st.issuedLog) : r ∈ (updateProgress st).issuedLog := by
  by_cases hc : st.loaded = st.total
  · rw [updateProgress_pos st hc]
    exact issueList_issued_mono _ _ _ h
  · rw [updateProgress_neg st hc]
    exact h

lemma updateProgress_issued_sub (st : St) (r : Pending)
    (hr : r ∈ (updateProgress st).issuedLog) :
    r ∈ st.issuedLog ∨ r.kind.isKey = true := by
  by_cases h : st.loaded = st.total
  · rw [updateProgress_pos st h] at hr
    rcases issueList_issued_sub _ _ _ hr with h' | h'
    · exact Or.inl h'
    · rcases List.mem_map.1 h' with ⟨p, _, he⟩
      right
      have : r.kind = LoadKind.key p.1 := by
        have := congrArg Prod.fst he
        exact this.symm
      rw [this]; rfl
  · rw [updateProgress_neg st h] at hr
    exact Or.inl hr

lemma updateProgress_countBS (st : St) :
    countBS (updateProgress st).pending = countBS st.pending := by
  by_cases h : st.loaded = st.total
  · rw [updateProgress_pos st h]
    exact issueList_countBS _ (by
      intro kp hk
      rcases List.mem_map.1 hk with ⟨p, _, he⟩
      have : kp.1 = LoadKind.key p.1 := (congrArg Prod.fst he).symm
      rw [this]; rfl) _
  · rw [updateProgress_neg st h]

lemma updateProgress_countBase (st : St) :
    countBase (updateProgress st).pending = countBase st.pending := by
  by_cases h : st.loaded = st.total
  · rw [updateProgress_pos st h]
    exact issueList_countBase _ (by
      intro kp hk
      rcases List.mem_map.1 hk with ⟨p, _, he⟩
      have : kp.1 = LoadKind.key p.1 := (congrArg Prod.fst he).symm
      rw [this]
      intro hcon
      cases hcon) _
  · rw [updateProgress_neg st h]

lemma updateProgress_trigger (st : St) (h : st.loaded = st.total)
    (p : String × Slot) (hp : p ∈ st.slots) :
    ∃ r ∈ (updateProgress st).issuedLog,
      r.kind = LoadKind.key p.1 ∧ r.path = p.2.offPath := by
  rw [updateProgress_pos st h]
  exact issueList_issued_new _ _ (LoadKind.key p.1, p.2.offPath)
    (List.mem_map.2 ⟨p, hp, rfl⟩)

end ProgressHelpers

section CountHelpers

lemma countBS_pos_of_mem (l : List Pending) (r : Pending) (hr : r ∈ l)
    (h : r.kind.isKey = false) : 1 ≤ countBS l :=
  one_le_length_filter _ l r hr (by rw [h]; rfl)

lemma countBase_pos_of_mem (l : List Pending) (r : Pending) (hr : r ∈ l)
    (h : r.kind = LoadKind.base) : 1 ≤ countBase l :=
  one_le_length_filter _ l r hr (by simp [h])

lemma countBS_filter_le (l : List Pending) (j : Nat) :
    countBS (l.filter (fun q => q.id ≠ j)) ≤ countBS l :=
  length_filter_filter_le _ _ l

lemma countBase_filter_le (l : List Pending) (j : Nat) :
    countBase (l.filter (fun q => q.id ≠ j)) ≤ countBase l :=
  length_filter_filter_le _ _ l

lemma countBS_filter_lt (l : List Pending) (j : Nat) (r : Pending)
    (hr : r ∈ l) (hk : r.kind.isKey = false) (hid : r.id = j) :
    countBS (l.filter (fun q => q.id ≠ j)) < countBS l :=
  length_filter_filter_lt _ _ l r hr (by rw [hk]; rfl) (by simp [hid])

lemma countBS_zero_of (l : List Pending)
    (h : ∀ r ∈ l, r.kind.isKey = false → r.kind = LoadKind.base ∧ r.id = 0) :
    countBS (l.filter (fun q => q.id ≠ 0)) = 0 := by
  unfold countBS
  rw [filter_eq_nil_of]
  · rfl
  · intro a ha
    rcases List.mem_filter.1 ha with ⟨hal, hid⟩
    by_cases hk : a.kind.isKey = false
    · exact absurd (h a hal hk).2 (by simpa using hid)
    · simp only [Bool.not_eq_false] at hk
      simp [hk]

lemma countBase_zero_of (l : List Pending)
    (h : ∀ r ∈ l, r.kind.isKey = false → r.kind = LoadKind.base ∧ r.id = 0) :
    countBase (l.filter (fun q => q.id ≠ 0)) = 0 := by
  unfold countBase
  rw [filter_eq_nil_of]
  · rfl
  · intro a ha
    rcases List.mem_filter.1 ha with ⟨hal, hid⟩
    by_cases hb : a.kind = LoadKind.base
    · have hk : a.kind.isKey = false := by rw [hb]; rfl
      exact absurd (h a hal hk).2 (by simpa using hid)
    · simp [hb]

lemma find?_id_facts (l : List Pending) (j : Nat) (r : Pending)
    (h : l.find? (fun q => q.id = j) = some r) : r ∈ l ∧ r.id = j :=
  ⟨List.mem_of_find?_eq_some h, by simpa using List.find?_some h⟩

lemma round100_mono (n k k' : Nat) (h : k ≤ k') :
    round100 k n ≤ round100 k' n :=
  Nat.div_le_div_right (by omega)

lemma isSec_false_of_isKey {k : LoadKind} (h : k.isKey = true) :
    k.isSec = false := by
  cases k <;> simp [LoadKind.isKey, LoadKind.isSec] at *

lemma isKey_false_of_isSec {k : LoadKind} (h : k.isSec = true) :
    k.isKey = false := by
  cases k <;> simp [LoadKind.isKey, LoadKind.isSec] at *

end CountHelpers


lemma invA_init (cfg : Config) : InvA (init cfg) := by
  refine ⟨?_, ?_, ?_, ?_, ?_, ?_, ?_, ?_, ?_, ?_, ?_, ?_⟩
  · intro _
    refine ⟨rfl, rfl, rfl, rfl, rfl, rfl, ?_, ?_, ?_⟩
    · intro r hr
      simp only [init, issue, List.nil_append, List.mem_singleton] at hr
      rw [hr]
      rfl
    · intro e he
      simp [init, issue] at he
    · intro r hr _
      simp only [init, issue, List.nil_append, List.mem_singleton] at hr
      rw [hr]
      exact ⟨rfl, rfl⟩
  · intro h
    cases h
  · intro e he
    simp [init, issue] at he
  · rfl
  · rfl
  · show false = decide (0 = 1 + cfg.restPaths.length)
    rw [eq_comm, decide_eq_false_iff_not]
    omega
  · rfl
  · show 0 + countBS [⟨0, .base, cfg.basePath, none⟩] ≤ 1 + cfg.restPaths.length
    unfold countBS
    simp [LoadKind.isKey]
  · intro _
    show countBS [⟨0, .base, cfg.basePath, none⟩] ≤ 1
    unfold countBS
    simp [LoadKind.isKey]
  · intro h
    cases h
  · intro e he
    simp [init, issue] at he
  · intro e he
    simp [init, issue] at he

section StepPreservation

lemma invA_issueKeySlots (st : St) (inv : InvA st)
    (sl1 : List (String × Slot))
    (hsl : ∀ p ∈ sl1, ∃ s, (p.1, s) ∈ st.slots ∧ s.offPath = p.2.offPath)
    (c : String) (pth : String) :
    InvA (issue { st with slots := sl1 } (LoadKind.key c) pth) := by
  refine ⟨?_, ?_, ?_, ?_, ?_, ?_, ?_, ?_, ?_, ?_, ?_, ?_⟩
  · intro h
    obtain ⟨h1, h2, h3, h4, h5, h6, h7, h8, h9⟩ := inv.preBase h
    refine ⟨h1, h2, h3, h4, h5, h6, ?_, h8, ?_⟩
    · intro r hr
      rw [issue_issuedLog] at hr
      rcases List.mem_append.1 hr with hr | hr
      · exact h7 r hr
      · rw [List.mem_singleton] at hr
        rw [hr]
        rfl
    · intro r hr hk
      rw [issue_pending] at hr
      rcases List.mem_append.1 hr with hr | hr
      · exact h9 r hr hk
      · rw [List.mem_singleton] at hr
        rw [hr] at hk
        cases hk
  · intro h
    obtain ⟨h1, h2, h3⟩ := inv.postBase h
    refine ⟨h1, ?_, h3⟩
    rw [issue_pending]
    rw [countBase_append_not _ _ (by intro hc; cases hc)]
    exact h2
  · exact inv.secApplied
  · exact inv.count_eq
  · exact inv.progress_eq
  · exact inv.overlay_eq
  · exact inv.initKeys_eq
  · show st.loaded + countBS (issue _ _ _).pending ≤ st.total
    rw [issue_pending, countBS_append_key _ _ (by rfl)]
    exact inv.load_bound
  · intro h
    show countBS (issue _ _ _).pending ≤ 1
    rw [issue_pending, countBS_append_key _ _ (by rfl)]
    exact inv.preBS h
  · intro h p hp
    rw [issue_slots] at hp
    obtain ⟨s, hmem, hoff⟩ := hsl p hp
    obtain ⟨r, hr, hk, hpa⟩ := inv.initKeys_issued h (p.1, s) hmem
    refine ⟨r, ?_, hk, by rw [hpa, hoff]⟩
    rw [issue_issuedLog]
    exact List.mem_append.2 (Or.inl hr)
  · exact inv.placed_rot
  · exact inv.anims_mixed

lemma invA_keydown (st : St) (inv : InvA st) (c : String) :
    InvA (step st (Ev.keydown c)) := by
  cases h : lookupSlot st.slots c with
  | none => simpa [step, h] using inv
  | some slot =>
    by_cases hp : slot.pressed
    · simpa [step, h, hp] using inv
    · have hsl : ∀ p ∈ updateSlot st.slots c
          (fun s => { s with pressed := true }),
          ∃ s, (p.1, s) ∈ st.slots ∧ s.offPath = p.2.offPath := by
        intro p hmem
        obtain ⟨s, hs, he⟩ := mem_updateSlot _ _ _ p hmem
        refine ⟨s, hs, ?_⟩
        rcases he with he | he <;> rw [he]
      have := invA_issueKeySlots st inv _ hsl c slot.onPath
      simpa [step, h, hp] using this

lemma invA_keyup (st : St) (inv : InvA st) (c : String) :
    InvA (step st (Ev.keyup c)) := by
  cases h : lookupSlot st.slots c with
  | none => simpa [step, h] using inv
  | some slot =>
    by_cases hp : slot.pressed
    · have hsl : ∀ p ∈ updateSlot st.slots c
          (fun s => { s with pressed := false }),
          ∃ s, (p.1, s) ∈ st.slots ∧ s.offPath = p.2.offPath := by
        intro p hmem
        obtain ⟨s, hs, he⟩ := mem_updateSlot _ _ _ p hmem
        refine ⟨s, hs, ?_⟩
        rcases he with he | he <;> rw [he]
      have := invA_issueKeySlots st inv _ hsl c slot.offPath
      simpa [step, h, hp] using this
    · simpa [step, h, hp] using inv

lemma invA_removePending (st : St) (inv : InvA st) (j : Nat) :
    InvA { st with pending := st.pending.filter (fun q => q.id ≠ j) } := by
  refine ⟨?_, ?_, ?_, ?_, ?_, ?_, ?_, ?_, ?_, ?_, ?_, ?_⟩
  · intro h
    obtain ⟨h1, h2, h3, h4, h5, h6, h7, h8, h9⟩ := inv.preBase h
    refine ⟨h1, h2, h3, h4, h5, h6, h7, h8, ?_⟩
    intro r hr hk
    exact h9 r (List.mem_filter.1 hr).1 hk
  · intro h
    obtain ⟨h1, h2, h3⟩ := inv.postBase h
    refine ⟨h1, ?_, h3⟩
    show countBase (st.pending.filter (fun q => q.id ≠ j)) = 0
    have := countBase_filter_le st.pending j
    omega
  · exact inv.secApplied
  · exact inv.count_eq
  · exact inv.progress_eq
  · exact inv.overlay_eq
  · exact inv.initKeys_eq
  · have := countBS_filter_le st.pending j
    have hb := inv.load_bound
    show st.loaded + countBS (st.pending.filter (fun q => q.id ≠ j)) ≤ st.total
    omega
  · intro h
    have := countBS_filter_le st.pending j
    have hb := inv.preBS h
    show countBS (st.pending.filter (fun q => q.id ≠ j)) ≤ 1
    omega
  · exact inv.initKeys_issued
  · exact inv.placed_rot
  · exact inv.anims_mixed

lemma invA_fail (st : St) (inv : InvA st) (j : Nat) :
    InvA (step st (Ev.fail j)) :=
  invA_removePending st inv j

lemma secList_kinds (st0 : St) (kp : LoadKind × String)
    (h : kp ∈ (st0.restPaths.enum).map
      (fun p => (LoadKind.sec (p.1 + 1), p.2))) :
    ∃ i, kp.1 = LoadKind.sec i := by
  rcases List.mem_map.1 h with ⟨p, _, he⟩
  exact ⟨p.1 + 1, (congrArg Prod.fst he).symm⟩

lemma invA_completeBase_aux (st0 : St) (r : Pending) (a : Asset)
    (hfr : st0.frame = none) (hfw : st0.frameWrites = 0)
    (hld : st0.loaded = 0) (hov : st0.overlayHidden = false)
    (hik : st0.initKeysDone = false) (hpl : st0.progressLog = [])
    (hplc : ∀ e ∈ st0.placed, e.kind.isKey = true ∧ e.applied = none)
    (hcbs : countBS st0.pending = 0) (hcb : countBase st0.pending = 0)
    (hrot : ∀ e ∈ st0.placed,
      e.rot = st0.modelRotation ∧ e.shadow = st0.enabledShadow)
    (hanim : ∀ e ∈ st0.placed, e.anims = true → e.mesh ∈ st0.mixers) :
    InvA (completeBase st0 r a) := by
  have hPlaced : (completeBase st0 r a).placed = st0.placed ++
      [⟨st0.nextMesh, .base, r.path, a.box, some (computeFrame a.box),
        st0.modelRotation, st0.enabledShadow, a.anims⟩] := by
    show (issueList _ _).placed = _
    rw [issueList_placed, updateProgress_placed]
    rfl
  have hFrame : (completeBase st0 r a).frame = some (computeFrame a.box) := by
    show (issueList _ _).frame = _
    rw [issueList_frame, updateProgress_frame]
    rfl
  have hFW : (completeBase st0 r a).frameWrites = 1 := by
    show (issueList _ _).frameWrites = _
    rw [issueList_frameWrites, updateProgress_frameWrites]
    show st0.frameWrites + 1 = 1
    omega
  have hLd : (completeBase st0 r a).loaded = 1 := by
    show (issueList _ _).loaded = _
    rw [issueList_loaded, updateProgress_loaded]
    show st0.loaded + 1 = 1
    omega
  have hBD : (completeBase st0 r a).baseDone = true := by
    show (issueList _ _).baseDone = _
    rw [issueList_baseDone, updateProgress_baseDone]
    rfl
  have hTot : (completeBase st0 r a).total = st0.total := by
    show (issueList _ _).total = _
    rw [issueList_total, updateProgress_total]
    rfl
  have hBtot : (basePlacedSt st0 r a).total = st0.total := rfl
  have hBload : (basePlacedSt st0 r a).loaded = 1 := by
    show st0.loaded + 1 = 1
    omega
  have hOv : (completeBase st0 r a).overlayHidden =
      decide (1 = st0.total) := by
    show (issueList _ _).overlayHidden = _
    rw [issueList_overlay, updateProgress_overlay, hBtot, hBload]
    show (st0.overlayHidden || decide (1 = st0.total)) = decide (1 = st0.total)
    rw [hov, Bool.false_or]
  have hIK : (completeBase st0 r a).initKeysDone =
      decide (1 = st0.total) := by
    show (issueList _ _).initKeysDone = _
    rw [issueList_initKeys, updateProgress_initKeys, hBtot, hBload]
    show (st0.initKeysDone || decide (1 = st0.total)) = decide (1 = st0.total)
    rw [hik, Bool.false_or]
  have hPL : (completeBase st0 r a).progressLog =
      [round100 1 st0.total] := by
    show (issueList _ _).progressLog = _
    rw [issueList_progressLog, updateProgress_progressLog, hBtot, hBload]
    show st0.progressLog ++ _ = _
    rw [hpl, List.nil_append]
  have hSlots : (completeBase st0 r a).slots = st0.slots := by
    show (issueList _ _).slots = _
    rw [issueList_slots, updateProgress_slots]
    rfl
  have hMix : (completeBase st0 r a).mixers =
      (if a.anims then st0.mixers ++ [st0.nextMesh] else st0.mixers) := by
    show (issueList _ _).mixers = _
    rw [issueList_mixers, updateProgress_mixers]
    rfl
  have hRot : (completeBase st0 r a).modelRotation = st0.modelRotation := by
    show (issueList _ _).modelRotation = _
    rw [issueList_modelRotation, updateProgress_modelRotation]
    rfl
  have hSh : (completeBase st0 r a).enabledShadow = st0.enabledShadow := by
    show (issueList _ _).enabledShadow = _
    rw [issueList_enabledShadow, updateProgress_enabledShadow]
    rfl
  have hCBS : countBS (completeBase st0 r a).pending ≤
      st0.restPaths.length := by
    show countBS (issueList _ _).pending ≤ _
    have h1 := issueList_countBS_sec
      ((st0.restPaths.enum).map (fun p => (LoadKind.sec (p.1 + 1), p.2)))
      (updateProgress (basePlacedSt st0 r a))
    rw [updateProgress_countBS] at h1
    have h2 : countBS (basePlacedSt st0 r a).pending = 0 := hcbs
    have h3 : ((st0.restPaths.enum).map
        (fun p => (LoadKind.sec (p.1 + 1), p.2))).length =
        st0.restPaths.length := by
      rw [List.length_map, List.enum_length]
    omega
  have hCB : countBase (completeBase st0 r a).pending = 0 := by
    show countBase (issueList _ _).pending = 0
    rw [issueList_countBase _ (by
      intro kp hk
      obtain ⟨i, hi⟩ := secList_kinds st0 kp hk
      rw [hi]
      intro hcon
      cases hcon), updateProgress_countBase]
    exact hcb
  refine ⟨?_, ?_, ?_, ?_, ?_, ?_, ?_, ?_, ?_, ?_, ?_, ?_⟩
  · intro h
    rw [hBD] at h
    cases h
  · intro _
    refine ⟨hFW, hCB, computeFrame a.box, st0.placed,
      ⟨st0.nextMesh, .base, r.path, a.box, some (computeFrame a.box),
        st0.modelRotation, st0.enabledShadow, a.anims⟩, [],
      hFrame, by rw [hPlaced], rfl, rfl, rfl, hplc, ?_, by rw [hLd]⟩
    intro e he
    cases he
  · intro e he hsec
    rw [hPlaced] at he
    rcases List.mem_append.1 he with he | he
    · have := (hplc e he).1
      rw [isSec_false_of_isKey this] at hsec
      cases hsec
    · rw [List.mem_singleton] at he
      rw [he] at hsec
      cases hsec
  · rw [hLd, hPlaced, List.filter_append]
    have hnil : st0.placed.filter (fun e => !e.kind.isKey) = [] :=
      filter_eq_nil_of _ _ (fun e he => by rw [(hplc e he).1]; rfl)
    rw [hnil]
    rfl
  · rw [hPL, hLd, hTot]
    rfl
  · rw [hOv, hLd, hTot]
  · rw [hIK, hOv]
  · rw [hLd, hTot]
    show 1 + countBS (completeBase st0 r a).pending ≤
      1 + st0.restPaths.length
    omega
  · intro h
    rw [hBD] at h
    cases h
  · intro h p hp
    rw [hIK] at h
    have h1 : (1 : Nat) = st0.total := of_decide_eq_true h
    rw [hSlots] at hp
    have htr : (basePlacedSt st0 r a).loaded =
        (basePlacedSt st0 r a).total := by
      rw [hBload, hBtot]
      exact h1
    obtain ⟨r', hr', hk', hp'⟩ :=
      updateProgress_trigger (basePlacedSt st0 r a) htr p hp
    exact ⟨r', issueList_issued_mono _ _ _ hr', hk', hp'⟩
  · intro e he
    rw [hPlaced] at he
    rw [hRot, hSh]
    rcases List.mem_append.1 he with he | he
    · exact hrot e he
    · rw [List.mem_singleton] at he
      rw [he]
      exact ⟨rfl, rfl⟩
  · intro e he hea
    rw [hPlaced] at he
    rw [hMix]
    rcases List.mem_append.1 he with he | he
    · have := hanim e he hea
      cases a.anims <;> simp [this]
    · rw [List.mem_singleton] at he
      subst he
      change a.anims = true at hea
      simp [hea]

lemma invA_completeSec_aux (st0 : St) (r : Pending) (a : Asset)
    (inv0 : InvA st0)
    (hbd : st0.baseDone = true)
    (hsec : r.kind.isSec = true)
    (hbound : st0.loaded + countBS st0.pending + 1 ≤ st0.total) :
    InvA (completeSec st0 r a) := by
  have hknk : (!r.kind.isKey) = true := by
    rw [isKey_false_of_isSec hsec]
    rfl
  have hOv0 : st0.overlayHidden = false := by
    rw [inv0.overlay_eq, decide_eq_false_iff_not]
    omega
  have hIK0 : st0.initKeysDone = false := by
    rw [inv0.initKeys_eq, hOv0]
  have eS : Placed := ⟨st0.nextMesh, r.kind, r.path, a.box, st0.frame,
    st0.modelRotation, st0.enabledShadow, a.anims⟩
  have hStot : (secPlacedSt st0 r a).total = st0.total := rfl
  have hSload : (secPlacedSt st0 r a).loaded = st0.loaded + 1 := rfl
  have hPlaced : (completeSec st0 r a).placed = st0.placed ++
      [⟨st0.nextMesh, r.kind, r.path, a.box, st0.frame,
        st0.modelRotation, st0.enabledShadow, a.anims⟩] := by
    show (updateProgress _).placed = _
    rw [updateProgress_placed]
    rfl
  have hFrame : (completeSec st0 r a).frame = st0.frame := by
    show (updateProgress _).frame = _
    rw [updateProgress_frame]
    rfl
  have hFW : (completeSec st0 r a).frameWrites = st0.frameWrites := by
    show (updateProgress _).frameWrites = _
    rw [updateProgress_frameWrites]
    rfl
  have hLd : (completeSec st0 r a).loaded = st0.loaded + 1 := by
    show (updateProgress _).loaded = _
    rw [updateProgress_loaded]
    rfl
  have hBD : (completeSec st0 r a).baseDone = true := by
    show (updateProgress _).baseDone = _
    rw [updateProgress_baseDone]
    exact hbd
  have hTot : (completeSec st0 r a).total = st0.total := by
    show (updateProgress _).total = _
    rw [updateProgress_total]
    rfl
  have hSlots : (completeSec st0 r a).slots = st0.slots := by
    show (updateProgress _).slots = _
    rw [updateProgress_slots]
    rfl
  have hOv : (completeSec st0 r a).overlayHidden =
      decide (st0.loaded + 1 = st0.total) := by
    show (updateProgress _).overlayHidden = _
    rw [updateProgress_overlay, hStot, hSload]
    show (st0.overlayHidden || decide (st0.loaded + 1 = st0.total)) = _
    rw [hOv0, Bool.false_or]
  have hIK : (completeSec st0 r a).initKeysDone =
      decide (st0.loaded + 1 = st0.total) := by
    show (updateProgress _).initKeysDone = _
    rw [updateProgress_initKeys, hStot, hSload]
    show (st0.initKeysDone || decide (st0.loaded + 1 = st0.total)) = _
    rw [hIK0, Bool.false_or]
  have hPL : (completeSec st0 r a).progressLog =
      st0.progressLog ++ [round100 (st0.loaded + 1) st0.total] := by
    show (updateProgress _).progressLog = _
    rw [updateProgress_progressLog, hStot, hSload]
    rfl
  have hMix : (completeSec st0 r a).mixers =
      (if a.anims then st0.mixers ++ [st0.nextMesh] else st0.mixers) := by
    show (updateProgress _).mixers = _
    rw [updateProgress_mixers]
    rfl
  have hRot : (completeSec st0 r a).modelRotation = st0.modelRotation := by
    show (updateProgress _).modelRotation = _
    rw [updateProgress_modelRotation]
    rfl
  have hSh : (completeSec st0 r a).enabledShadow = st0.enabledShadow := by
    show (updateProgress _).enabledShadow = _
    rw [updateProgress_enabledShadow]
    rfl
  have hCBS : countBS (completeSec st0 r a).pending =
      countBS st0.pending := by
    show countBS (updateProgress _).pending = _
    rw [updateProgress_countBS]
    rfl
  have hCB : countBase (completeSec st0 r a).pending =
      countBase st0.pending := by
    show countBase (updateProgress _).pending = _
    rw [updateProgress_countBase]
    rfl
  obtain ⟨fw1, cb1, f, pr, e0, post, hfr1, hplc1, hk1, ha1, hcf1, hpre1,
    hpost1, hld1⟩ := inv0.postBase hbd
  refine ⟨?_, ?_, ?_, ?_, ?_, ?_, ?_, ?_, ?_, ?_, ?_, ?_⟩
  · intro h
    rw [hBD] at h
    cases h
  · intro _
    refine ⟨by rw [hFW]; exact fw1, by rw [hCB]; exact cb1,
      f, pr, e0, post ++ [⟨st0.nextMesh, r.kind, r.path, a.box, st0.frame,
        st0.modelRotation, st0.enabledShadow, a.anims⟩],
      by rw [hFrame]; exact hfr1, ?_, hk1, ha1, hcf1, hpre1, ?_, ?_⟩
    · rw [hPlaced, hplc1, List.append_assoc, List.cons_append]
    · intro e he
      rcases List.mem_append.1 he with he | he
      · exact hpost1 e he
      · rw [List.mem_singleton] at he
        subst he
        show st0.frame = some f
        exact hfr1
    · rw [hLd]
      omega
  · intro e he hs
    rw [hPlaced] at he
    rw [hFrame]
    rcases List.mem_append.1 he with he | he
    · exact inv0.secApplied e he hs
    · rw [List.mem_singleton] at he
      subst he
      rfl
  · rw [hLd, hPlaced, List.filter_append, inv0.count_eq]
    have hone : (List.filter (fun e => !e.kind.isKey)
        ([⟨st0.nextMesh, r.kind, r.path, a.box, st0.frame,
          st0.modelRotation, st0.enabledShadow, a.anims⟩] :
          List Placed)).length = 1 := by
      simp only [List.filter_cons, List.filter_nil, hknk]
      rfl
    rw [List.length_append, hone]
  · rw [hPL, hLd, hTot, inv0.progress_eq, List.range_succ, List.map_append]
    rfl
  · rw [hOv, hLd, hTot]
  · rw [hIK, hOv]
  · rw [hLd, hTot, hCBS]
    omega
  · intro h
    rw [hBD] at h
    cases h
  · intro h p hp
    rw [hIK] at h
    have h1 : st0.loaded + 1 = st0.total := of_decide_eq_true h
    rw [hSlots] at hp
    have htr : (secPlacedSt st0 r a).loaded =
        (secPlacedSt st0 r a).total := by
      rw [hSload, hStot]
      exact h1
    exact updateProgress_trigger (secPlacedSt st0 r a) htr p hp
  · intro e he
    rw [hPlaced] at he
    rw [hRot, hSh]
    rcases List.mem_append.1 he with he | he
    · exact inv0.placed_rot e he
    · rw [List.mem_singleton] at he
      subst he
      exact ⟨rfl, rfl⟩
  · intro e he hea
    rw [hPlaced] at he
    rw [hMix]
    rcases List.mem_append.1 he with he | he
    · have := inv0.anims_mixed e he hea
      cases a.anims <;> simp [this]
    · rw [List.mem_singleton] at he
      subst he
      change a.anims = true at hea
      simp [hea]

lemma invA_keyRemove (st : St) (inv : InvA st) (r : Pending) (slot : Slot) :
    InvA (keyRemove st r slot) := by
  cases hm : slot.mesh with
  | none => simpa [keyRemove, hm] using inv
  | some p =>
    have h : keyRemove st r slot =
        { st with scene := st.scene.filter (fun o => o.id ≠ p),
                  removalLog := st.removalLog ++ [(r.id, p)] } := by
      rw [keyRemove, hm]
    rw [h]
    exact ⟨inv.preBase, inv.postBase, inv.secApplied, inv.count_eq,
      inv.progress_eq, inv.overlay_eq, inv.initKeys_eq, inv.load_bound,
      inv.preBS, inv.initKeys_issued, inv.placed_rot, inv.anims_mixed⟩

lemma invA_keyPlace (st1 : St) (inv1 : InvA st1) (r : Pending) (c : String)
    (a : Asset) : InvA (keyPlace st1 r c a) := by
  refine ⟨?_, ?_, ?_, ?_, ?_, ?_, ?_, ?_, ?_, ?_, ?_, ?_⟩
  · intro h
    obtain ⟨h1, h2, h3, h4, h5, h6, h7, h8, h9⟩ := inv1.preBase h
    refine ⟨h1, h2, h3, h4, h5, h6, h7, ?_, h9⟩
    intro e he
    replace he : e ∈ st1.placed ++ [⟨st1.nextMesh, .key c, r.path, a.box, st1.frame,
        st1.modelRotation, st1.enabledShadow, a.anims⟩] := he
    rcases List.mem_append.1 he with he | he
    · exact h8 e he
    · rw [List.mem_singleton] at he
      subst he
      exact ⟨rfl, h1⟩
  · intro h
    obtain ⟨fw1, cb1, f, pr, e0, post, hfr1, hplc1, hk1, ha1, hcf1, hpre1,
      hpost1, hld1⟩ := inv1.postBase h
    refine ⟨fw1, cb1, f, pr, e0, post ++
      [⟨st1.nextMesh, .key c, r.path, a.box, st1.frame,
        st1.modelRotation, st1.enabledShadow, a.anims⟩], hfr1, ?_, hk1, ha1,
      hcf1, hpre1, ?_, hld1⟩
    · show st1.placed ++ _ = _
      rw [hplc1, List.append_assoc, List.cons_append]
    · intro e he
      rcases List.mem_append.1 he with he | he
      · exact hpost1 e he
      · rw [List.mem_singleton] at he
        subst he
        show st1.frame = some f
        exact hfr1
  · intro e he hs
    replace he : e ∈ st1.placed ++ [⟨st1.nextMesh, .key c, r.path, a.box, st1.frame,
        st1.modelRotation, st1.enabledShadow, a.anims⟩] := he
    rcases List.mem_append.1 he with he | he
    · exact inv1.secApplied e he hs
    · rw [List.mem_singleton] at he
      subst he
      cases hs
  · show st1.loaded = ((st1.placed ++ _).filter _).length
    rw [List.filter_append]
    have hnil : (List.filter (fun e => !e.kind.isKey)
        ([⟨st1.nextMesh, .key c, r.path, a.box, st1.frame,
          st1.modelRotation, st1.enabledShadow, a.anims⟩] :
          List Placed)) = [] := rfl
    rw [hnil, List.append_nil]
    exact inv1.count_eq
  · exact inv1.progress_eq
  · exact inv1.overlay_eq
  · exact inv1.initKeys_eq
  · exact inv1.load_bound
  · exact inv1.preBS
  · intro h p hp
    replace hp : p ∈ updateSlot st1.slots c
      (fun s => { s with mesh := some st1.nextMesh }) := hp
    obtain ⟨s, hs, he⟩ := mem_updateSlot _ _ _ p hp
    obtain ⟨r', hr', hk', hp'⟩ := inv1.initKeys_issued h (p.1, s) hs
    refine ⟨r', hr', hk', ?_⟩
    rw [hp']
    rcases he with he | he <;> rw [he]
  · intro e he
    replace he : e ∈ st1.placed ++ [⟨st1.nextMesh, .key c, r.path, a.box, st1.frame,
        st1.modelRotation, st1.enabledShadow, a.anims⟩] := he
    rcases List.mem_append.1 he with he | he
    · exact inv1.placed_rot e he
    · rw [List.mem_singleton] at he
      subst he
      exact ⟨rfl, rfl⟩
  · intro e he hea
    replace he : e ∈ st1.placed ++ [⟨st1.nextMesh, .key c, r.path, a.box, st1.frame,
        st1.modelRotation, st1.enabledShadow, a.anims⟩] := he
    show e.mesh ∈ (if a.anims then st1.mixers ++ [st1.nextMesh]
      else st1.mixers)
    rcases List.mem_append.1 he with he | he
    · have := inv1.anims_mixed e he hea
      cases a.anims <;> simp [this]
    · rw [List.mem_singleton] at he
      subst he
      change a.anims = true at hea
      simp [hea]

lemma invA_completeKey_aux (st0 : St) (r : Pending) (c : String) (a : Asset)
    (inv0 : InvA st0) : InvA (completeKey st0 r c a) := by
  cases hl : lookupSlot st0.slots c with
  | none => simpa [completeKey, hl] using inv0
  | some slot =>
    have h : completeKey st0 r c a = keyPlace (keyRemove st0 r slot) r c a := by
      rw [completeKey, hl]
    rw [h]
    exact invA_keyPlace _ (invA_keyRemove st0 inv0 r slot) r c a

lemma invA_complete (st : St) (inv : InvA st) (j : Nat) (a : Asset) :
    InvA (step st (Ev.complete j a)) := by
  cases hfind : st.pending.find? (fun q => q.id = j) with
  | none => simpa [step, hfind] using inv
  | some r =>
    obtain ⟨hmem, hid⟩ := find?_id_facts _ _ _ hfind
    have inv1 := invA_removePending st inv j
    cases hk : r.kind with
    | base =>
      have hbd : st.baseDone = false := by
        cases hbdc : st.baseDone with
        | false => rfl
        | true =>
          exfalso
          have hcb := (inv.postBase hbdc).2.1
          have := countBase_pos_of_mem st.pending r hmem hk
          omega
      obtain ⟨h1, h2, h3, h4, h5, h6, h7, h8, h9⟩ := inv.preBase hbd
      have hj : j = 0 := by
        have := (h9 r hmem (by rw [hk]; rfl)).2
        rw [← hid, this]
      subst hj
      have hres := invA_completeBase_aux
        { st with pending := st.pending.filter (fun q => q.id ≠ 0) } r a
        h1 h2 h3 h4 h5 h6 h8
        (countBS_zero_of st.pending h9)
        (countBase_zero_of st.pending h9)
        inv.placed_rot inv.anims_mixed
      simpa [step, hfind, hk] using hres
    | sec i =>
      have hbd : st.baseDone = true := by
        cases hbdc : st.baseDone with
        | true => rfl
        | false =>
          exfalso
          obtain ⟨_, _, _, _, _, _, _, _, h9⟩ := inv.preBase hbdc
          have := (h9 r hmem (by rw [hk]; rfl)).1
          rw [hk] at this
          cases this
      have hsec : r.kind.isSec = true := by rw [hk]; rfl
      have hlt := countBS_filter_lt st.pending j r hmem
        (by rw [hk]; rfl) hid
      have hlb := inv.load_bound
      have hres := invA_completeSec_aux
        { st with pending := st.pending.filter (fun q => q.id ≠ j) } r a
        inv1 hbd hsec (by
          show st.loaded + countBS (st.pending.filter (fun q => q.id ≠ j)) +
            1 ≤ st.total
          omega)
      simpa [step, hfind, hk] using hres
    | key c =>
      have hres := invA_completeKey_aux
        { st with pending := st.pending.filter (fun q => q.id ≠ j) } r c a
        inv1
      simpa [step, hfind, hk] using hres

lemma invA_step (st : St) (inv : InvA st) (e : Ev) : InvA (step st e) := by
  cases e with
  | keydown c => exact invA_keydown st inv c
  | keyup c => exact invA_keyup st inv c
  | complete j a => exact invA_complete st inv j a
  | fail j => exact invA_fail st inv j

lemma invA_run (st : St) (inv : InvA st) (evs : List Ev) :
    InvA (run st evs) := by
  induction evs generalizing st with
  | nil => exact inv
  | cons e rest ih => exact ih (step st e) (invA_step st inv e)

lemma invA_run_init (cfg : Config) (evs : List Ev) :
    InvA (run (init cfg) evs) :=
  invA_run (init cfg) (invA_init cfg) evs

end StepPreservation

section SceneInvariant


lemma residents_eq (st : St) (c : String) :
    residents st c = resOf st.scene c := rfl


section MoreListHelpers

variable {α β : Type}

lemma map_eq_singleton (f : α → β) (l : List α) (b : β)
    (h : l.map f = [b]) : ∃ o, l = [o] ∧ f o = b := by
  cases l with
  | nil => cases h
  | cons o t =>
    cases t with
    | nil => exact ⟨o, rfl, by simpa using h⟩
    | cons o2 t2 => simp at h

lemma filter_comm' (p q : α → Bool) (l : List α) :
    (l.filter p).filter q = (l.filter q).filter p := by
  induction l with
  | nil => rfl
  | cons a t ih =>
    by_cases hp : p a = true <;> by_cases hq : q a = true <;>
      simp [List.filter_cons, hp, hq, ih]

lemma filter_eq_self_of (q : α → Bool) (l : List α)
    (h : ∀ a ∈ l, q a = true) : l.filter q = l := by
  induction l with
  | nil => rfl
  | cons a t ih =>
    rw [List.filter_cons, if_pos (h a (List.mem_cons_self a t))]
    rw [ih (fun b hb => h b (List.mem_cons_of_mem a hb))]

lemma nodup_id_inj (l : List SceneObj)
    (h : (l.map SceneObj.id).Nodup) :
    ∀ o ∈ l, ∀ o2 ∈ l, o.id = o2.id → o = o2 := by
  induction l with
  | nil => intro o ho; cases ho
  | cons a t ih =>
    simp only [List.map_cons, List.nodup_cons] at h
    obtain ⟨hna, hnd⟩ := h
    intro o ho o2 ho2 he
    rcases List.mem_cons.1 ho with h1 | h1
    · rcases List.mem_cons.1 ho2 with h2 | h2
      · rw [h1, h2]
      · exfalso
        have hm : o2.id ∈ t.map SceneObj.id := List.mem_map_of_mem _ h2
        rw [← he, h1] at hm
        exact hna hm
    · rcases List.mem_cons.1 ho2 with h2 | h2
      · exfalso
        have hm : o.id ∈ t.map SceneObj.id := List.mem_map_of_mem _ h1
        rw [he, h2] at hm
        exact hna hm
      · exact ih hnd o h1 o2 h2 he

end MoreListHelpers

lemma resOf_append_other (scene : List SceneObj) (o : SceneObj)
    (c : String) (h : ¬ o.kind = LoadKind.key c) :
    resOf (scene ++ [o]) c = resOf scene c := by
  unfold resOf
  rw [List.filter_append]
  have : List.filter (fun o => o.kind = LoadKind.key c) [o] = [] := by
    simp [h]
  rw [this, List.append_nil]

lemma resOf_append_key (scene : List SceneObj) (c : String) (m : Nat) :
    resOf (scene ++ [(⟨m, .key c⟩ : SceneObj)]) c = resOf scene c ++ [m] := by
  unfold resOf
  rw [List.filter_append]
  have : List.filter (fun o => o.kind = LoadKind.key c)
      [(⟨m, .key c⟩ : SceneObj)] = [⟨m, .key c⟩] := by
    simp
  rw [this, List.map_append]
  rfl

lemma resOf_remove_self (scene : List SceneObj) (c : String) (p : Nat)
    (hres : resOf scene c = [p]) :
    resOf (scene.filter (fun o => o.id ≠ p)) c = [] := by
  obtain ⟨op, hF, hop⟩ := map_eq_singleton _ _ _ hres
  unfold resOf
  rw [filter_eq_nil_of]
  · rfl
  · intro o ho
    rcases List.mem_filter.1 ho with ⟨hos, hoid⟩
    by_cases hk : o.kind = LoadKind.key c
    · have : o ∈ List.filter (fun o => o.kind = LoadKind.key c) scene :=
        List.mem_filter.2 ⟨hos, by simp [hk]⟩
      rw [hF, List.mem_singleton] at this
      subst this
      rw [hop] at hoid
      simp at hoid
    · simp [hk]

lemma resOf_remove_other (scene : List SceneObj) (c c' : String) (p : Nat)
    (hnd : (scene.map SceneObj.id).Nodup)
    (hres : resOf scene c = [p]) (hne : ¬ c' = c) :
    resOf (scene.filter (fun o => o.id ≠ p)) c' = resOf scene c' := by
  obtain ⟨op, hF, hop⟩ := map_eq_singleton _ _ _ hres
  have hopmem : op ∈ scene := by
    have : op ∈ List.filter (fun o => o.kind = LoadKind.key c) scene := by
      rw [hF]; exact List.mem_singleton.2 rfl
    exact (List.mem_filter.1 this).1
  have hopkind : op.kind = LoadKind.key c := by
    have : op ∈ List.filter (fun o => o.kind = LoadKind.key c) scene := by
      rw [hF]; exact List.mem_singleton.2 rfl
    have := (List.mem_filter.1 this).2
    simpa using this
  unfold resOf
  rw [filter_comm']
  rw [filter_eq_self_of _ _ ?_]
  intro o ho
  rcases List.mem_filter.1 ho with ⟨hos, hok⟩
  by_cases hid : o.id = p
  · exfalso
    have : o = op := nodup_id_inj scene hnd o hos op hopmem (by rw [hid, hop])
    subst this
    rw [hopkind] at hok
    simp at hok
    exact hne hok.symm
  · simp [hid]


lemma lookup_fresh_mesh (l : List (String × KeyPair)) (c : String) :
    ((lookupSlot (l.map
        (fun p => (p.1, ⟨p.2.offPath, p.2.onPath, none, false⟩))) c).bind
      Slot.mesh) = none := by
  induction l with
  | nil => rfl
  | cons a t ih =>
    by_cases h : a.1 = c
    · simp [lookupSlot, h]
    · simpa [lookupSlot, h] using ih

lemma invB_init (cfg : Config) : InvB (init cfg) := by
  refine ⟨List.nodup_nil, ?_, ?_⟩
  · intro o ho
    cases ho
  · intro c
    have h : slotMesh (init cfg) c = none := lookup_fresh_mesh cfg.keyModels c
    rw [residents_eq, h]
    rfl

lemma nodup_append_fresh (scene : List SceneObj) (o : SceneObj)
    (hnd : (scene.map SceneObj.id).Nodup)
    (hlt : ∀ x ∈ scene, x.id < o.id) :
    ((scene ++ [o]).map SceneObj.id).Nodup := by
  rw [List.map_append, List.nodup_append]
  refine ⟨hnd, by simp, ?_⟩
  intro x hx hx2
  rcases List.mem_map.1 hx with ⟨ob, hob, he⟩
  have hxo : x = o.id := by simpa using hx2
  have := hlt ob hob
  rw [← he] at hxo
  omega

lemma slotMesh_update_meshpres (l : List (String × Slot)) (c c' : String)
    (f : Slot → Slot) (hf : ∀ s, (f s).mesh = s.mesh) :
    (lookupSlot (updateSlot l c f) c').bind Slot.mesh =
      (lookupSlot l c').bind Slot.mesh := by
  by_cases h : c' = c
  · subst h
    rw [lookup_update_self]
    cases lookupSlot l c' with
    | none => rfl
    | some s =>
      show (some (f s)).bind Slot.mesh = (some s).bind Slot.mesh
      simp [hf]
  · rw [lookup_update_ne _ _ _ _ h]

lemma invB_slotsPressed (st : St) (inv : InvB st) (c : String)
    (f : Slot → Slot) (hf : ∀ s, (f s).mesh = s.mesh) (k : LoadKind)
    (pth : String) :
    InvB (issue { st with slots := updateSlot st.slots c f } k pth) := by
  refine ⟨inv.nodup, inv.lt, ?_⟩
  intro c'
  have h2 : slotMesh (issue { st with slots := updateSlot st.slots c f }
      k pth) c' = slotMesh st c' := by
    unfold slotMesh
    rw [issue_slots]
    exact slotMesh_update_meshpres st.slots c c' f hf
  rw [h2]
  exact inv.res c'

lemma invB_keydown (st : St) (inv : InvB st) (c : String) :
    InvB (step st (Ev.keydown c)) := by
  cases h : lookupSlot st.slots c with
  | none => simpa [step, h] using inv
  | some slot =>
    by_cases hp : slot.pressed
    · simpa [step, h, hp] using inv
    · have := invB_slotsPressed st inv c
        (fun s => { s with pressed := true }) (fun s => rfl)
        (LoadKind.key c) slot.onPath
      simpa [step, h, hp] using this

lemma invB_keyup (st : St) (inv : InvB st) (c : String) :
    InvB (step st (Ev.keyup c)) := by
  cases h : lookupSlot st.slots c with
  | none => simpa [step, h] using inv
  | some slot =>
    by_cases hp : slot.pressed
    · have := invB_slotsPressed st inv c
        (fun s => { s with pressed := false }) (fun s => rfl)
        (LoadKind.key c) slot.offPath
      simpa [step, h, hp] using this
    · simpa [step, h, hp] using inv

lemma invB_removePending (st : St) (inv : InvB st) (j : Nat) :
    InvB { st with pending := st.pending.filter (fun q => q.id ≠ j) } :=
  ⟨inv.nodup, inv.lt, inv.res⟩

lemma invB_completeBase (st0 : St) (inv : InvB st0) (r : Pending)
    (a : Asset) : InvB (completeBase st0 r a) := by
  have hscene : (completeBase st0 r a).scene =
      st0.scene ++ [⟨st0.nextMesh, .base⟩] := by
    show (issueList _ _).scene = _
    rw [issueList_scene, updateProgress_scene]
    rfl
  have hnm : (completeBase st0 r a).nextMesh = st0.nextMesh + 1 := by
    show (issueList _ _).nextMesh = _
    rw [issueList_nextMesh, updateProgress_nextMesh]
    rfl
  have hsl : (completeBase st0 r a).slots = st0.slots := by
    show (issueList _ _).slots = _
    rw [issueList_slots, updateProgress_slots]
    rfl
  refine ⟨?_, ?_, ?_⟩
  · rw [hscene]
    exact nodup_append_fresh _ _ inv.nodup (fun x hx => inv.lt x hx)
  · rw [hscene, hnm]
    intro o ho
    rcases List.mem_append.1 ho with ho | ho
    · have := inv.lt o ho
      omega
    · rw [List.mem_singleton] at ho
      subst ho
      show st0.nextMesh < st0.nextMesh + 1
      omega
  · intro c
    rw [residents_eq, hscene,
      resOf_append_other _ _ _ (by intro h; cases h)]
    have hm : slotMesh (completeBase st0 r a) c = slotMesh st0 c := by
      unfold slotMesh
      rw [hsl]
    rw [hm, ← residents_eq]
    exact inv.res c

lemma invB_completeSec (st0 : St) (inv : InvB st0) (r : Pending)
    (a : Asset) (hsec : r.kind.isSec = true) :
    InvB (completeSec st0 r a) := by
  obtain ⟨i, hi⟩ : ∃ i, r.kind = LoadKind.sec i := by
    cases hk : r.kind with
    | base => rw [hk] at hsec; cases hsec
    | sec i => exact ⟨i, rfl⟩
    | key c => rw [hk] at hsec; cases hsec
  have hscene : (completeSec st0 r a).scene =
      st0.scene ++ [⟨st0.nextMesh, r.kind⟩] := by
    show (updateProgress _).scene = _
    rw [updateProgress_scene]
    rfl
  have hnm : (completeSec st0 r a).nextMesh = st0.nextMesh + 1 := by
    show (updateProgress _).nextMesh = _
    rw [updateProgress_nextMesh]
    rfl
  have hsl : (completeSec st0 r a).slots = st0.slots := by
    show (updateProgress _).slots = _
    rw [updateProgress_slots]
    rfl
  refine ⟨?_, ?_, ?_⟩
  · rw [hscene]
    exact nodup_append_fresh _ _ inv.nodup (fun x hx => inv.lt x hx)
  · rw [hscene, hnm]
    intro o ho
    rcases List.mem_append.1 ho with ho | ho
    · have := inv.lt o ho
      omega
    · rw [List.mem_singleton] at ho
      subst ho
      show st0.nextMesh < st0.nextMesh + 1
      omega
  · intro c
    rw [residents_eq, hscene,
      resOf_append_other _ _ _ (by rw [hi]; intro h; cases h)]
    have hm : slotMesh (completeSec st0 r a) c = slotMesh st0 c := by
      unfold slotMesh
      rw [hsl]
    rw [hm, ← residents_eq]
    exact inv.res c

lemma invB_keyPlace (st1 : St) (r : Pending) (c : String) (a : Asset)
    (slot1 : Slot)
    (hnd1 : (st1.scene.map SceneObj.id).Nodup)
    (hlt1 : ∀ o ∈ st1.scene, o.id < st1.nextMesh)
    (hresc : resOf st1.scene c = [])
    (hres2 : ∀ c', ¬ c' = c →
      resOf st1.scene c' = meshList (slotMesh st1 c'))
    (hlk : lookupSlot st1.slots c = some slot1) :
    InvB (keyPlace st1 r c a) := by
  have hscene : (keyPlace st1 r c a).scene =
      st1.scene ++ [⟨st1.nextMesh, .key c⟩] := rfl
  have hnm : (keyPlace st1 r c a).nextMesh = st1.nextMesh + 1 := rfl
  have hsl : (keyPlace st1 r c a).slots =
      updateSlot st1.slots c (fun s => { s with mesh := some st1.nextMesh }) :=
    rfl
  refine ⟨?_, ?_, ?_⟩
  · rw [hscene]
    exact nodup_append_fresh _ _ hnd1 (fun x hx => hlt1 x hx)
  · rw [hscene, hnm]
    intro o ho
    rcases List.mem_append.1 ho with ho | ho
    · have := hlt1 o ho
      omega
    · rw [List.mem_singleton] at ho
      subst ho
      show st1.nextMesh < st1.nextMesh + 1
      omega
  · intro c0
    by_cases hc : c0 = c
    · subst hc
      rw [residents_eq, hscene, resOf_append_key, hresc, List.nil_append]
      have hm : slotMesh (keyPlace st1 r c0 a) c0 = some st1.nextMesh := by
        unfold slotMesh
        rw [hsl, lookup_update_self, hlk]
        rfl
      rw [hm]
      rfl
    · rw [residents_eq, hscene, resOf_append_other _ _ _ (by
        intro h
        injection h with h2
        exact hc h2.symm)]
      have hm : slotMesh (keyPlace st1 r c a) c0 = slotMesh st1 c0 := by
        unfold slotMesh
        rw [hsl, lookup_update_ne _ _ _ _ hc]
      rw [hm]
      exact hres2 c0 hc

lemma invB_completeKey (st0 : St) (inv : InvB st0) (r : Pending)
    (c : String) (a : Asset) : InvB (completeKey st0 r c a) := by
  cases hl : lookupSlot st0.slots c with
  | none => simpa [completeKey, hl] using inv
  | some slot =>
    have heq : completeKey st0 r c a = keyPlace (keyRemove st0 r slot) r c a := by
      rw [completeKey, hl]
    rw [heq]
    cases hm : slot.mesh with
    | none =>
      have hrm : keyRemove st0 r slot = st0 := by
        rw [keyRemove, hm]
      rw [hrm]
      refine invB_keyPlace st0 r c a slot inv.nodup inv.lt ?_ ?_ hl
      · have h0 : slotMesh st0 c = none := by
          unfold slotMesh
          rw [hl]
          show slot.mesh = none
          exact hm
        have := inv.res c
        rw [residents_eq, h0] at this
        exact this
      · intro c' _
        have := inv.res c'
        rw [residents_eq] at this
        exact this
    | some p =>
      have hsm : slotMesh st0 c = some p := by
        unfold slotMesh
        rw [hl]
        show slot.mesh = some p
        exact hm
      have hres0 : resOf st0.scene c = [p] := by
        have := inv.res c
        rw [residents_eq, hsm] at this
        exact this
      have hrm : keyRemove st0 r slot =
          { st0 with scene := st0.scene.filter (fun o => o.id ≠ p),
                     removalLog := st0.removalLog ++ [(r.id, p)] } := by
        rw [keyRemove, hm]
      rw [hrm]
      refine invB_keyPlace _ r c a slot ?_ ?_ ?_ ?_ hl
      · exact List.Nodup.sublist
          (List.Sublist.map SceneObj.id (List.filter_sublist _)) inv.nodup
      · intro o ho
        exact inv.lt o (List.mem_filter.1 ho).1
      · exact resOf_remove_self st0.scene c p hres0
      · intro c' hc'
        show resOf (st0.scene.filter (fun o => o.id ≠ p)) c' =
          meshList (slotMesh st0 c')
        rw [resOf_remove_other st0.scene c c' p inv.nodup hres0 hc']
        have := inv.res c'
        rw [residents_eq] at this
        exact this

lemma invB_complete (st : St) (inv : InvB st) (j : Nat) (a : Asset) :
    InvB (step st (Ev.complete j a)) := by
  cases hfind : st.pending.find? (fun q => q.id = j) with
  | none => simpa [step, hfind] using inv
  | some r =>
    have inv1 := invB_removePending st inv j
    cases hk : r.kind with
    | base =>
      have := invB_completeBase
        { st with pending := st.pending.filter (fun q => q.id ≠ j) } inv1 r a
      simpa [step, hfind, hk] using this
    | sec i =>
      have := invB_completeSec
        { st with pending := st.pending.filter (fun q => q.id ≠ j) } inv1 r a
        (by rw [hk]; rfl)
      simpa [step, hfind, hk] using this
    | key c =>
      have := invB_completeKey
        { st with pending := st.pending.filter (fun q => q.id ≠ j) } inv1 r c a
      simpa [step, hfind, hk] using this

lemma invB_step (st : St) (inv : InvB st) (e : Ev) : InvB (step st e) := by
  cases e with
  | keydown c => exact invB_keydown st inv c
  | keyup c => exact invB_keyup st inv c
  | complete j a => exact invB_complete st inv j a
  | fail j => exact invB_removePending st inv j

lemma invB_run (st : St) (inv : InvB st) (evs : List Ev) :
    InvB (run st evs) := by
  induction evs generalizing st with
  | nil => exact inv
  | cons e rest ih => exact ih (step st e) (invB_step st inv e)

lemma invB_run_init (cfg : Config) (evs : List Ev) :
    InvB (run (init cfg) evs) :=
  invB_run (init cfg) (invB_init cfg) evs

end SceneInvariant


section ClaimTwo

/-- C2: the Normalization Frame is assigned exactly once per session,
from the first-loaded base asset only (its value is computeFrame of the
base box), and is never recomputed; every asset placed after it — the
base, secondary parts and key-swap variants alike — has exactly that
frame applied, regardless of its own bounding box. -/
theorem C2_frame_once (cfg : Config) (evs : List Ev) :
    (run (init cfg) evs).frameWrites ≤ 1 ∧
    ((run (init cfg) evs).frame = none →
      (run (init cfg) evs).frameWrites = 0) ∧
    (∀ f, (run (init cfg) evs).frame = some f →
      (run (init cfg) evs).frameWrites = 1 ∧
      ∃ pre e0 post, (run (init cfg) evs).placed = pre ++ e0 :: post ∧
        e0.kind = LoadKind.base ∧ e0.applied = some f ∧
        f = computeFrame e0.box ∧
        (∀ e ∈ post, e.applied = some f)) := by
  have inv := invA_run_init cfg evs
  refine ⟨?_, ?_, ?_⟩
  · cases hbd : (run (init cfg) evs).baseDone with
    | false =>
      have := (inv.preBase hbd).2.1
      omega
    | true =>
      have := (inv.postBase hbd).1
      omega
  · intro hf
    cases hbd : (run (init cfg) evs).baseDone with
    | false => exact (inv.preBase hbd).2.1
    | true =>
      obtain ⟨_, _, f, _, _, _, hfr, _⟩ := inv.postBase hbd
      rw [hf] at hfr
      cases hfr
  · intro f hf
    cases hbd : (run (init cfg) evs).baseDone with
    | false =>
      have := (inv.preBase hbd).1
      rw [hf] at this
      cases this
    | true =>
      obtain ⟨hfw, _, f2, pre, e0, post, hfr, hplc, hk, ha, hcf, _,
        hpost, _⟩ := inv.postBase hbd
      rw [hf] at hfr
      injection hfr with hff
      subst hff
      exact ⟨hfw, pre, e0, post, hplc, hk, ha, hcf, hpost⟩

/-- C2 witness: in a session that loads the base, a secondary part and a
key asset, the frame is written once and every later placement carries
it. -/
theorem C2_frame_once_witness :
    (run (init cfgFull)
      [Ev.complete 0 assetU, Ev.complete 1 assetU, Ev.complete 2 assetU]
      ).frameWrites = 1 ∧
    ∃ pre e0 post, (run (init cfgFull)
      [Ev.complete 0 assetU, Ev.complete 1 assetU, Ev.complete 2 assetU]
      ).placed = pre ++ e0 :: post ∧
      e0.kind = LoadKind.base ∧
      e0.applied = some (.fin 1, ⟨.fin 0, .fin 0, .fin 0⟩) ∧
      (.fin 1, ⟨.fin 0, .fin 0, .fin 0⟩) = computeFrame e0.box ∧
      (∀ e ∈ post, e.applied = some (.fin 1, ⟨.fin 0, .fin 0, .fin 0⟩)) :=
  (C2_frame_once cfgFull
    [Ev.complete 0 assetU, Ev.complete 1 assetU, Ev.complete 2 assetU]).2.2
    (.fin 1, ⟨.fin 0, .fin 0, .fin 0⟩) (by with_unfolding_all decide)

end ClaimTwo

section ClaimThree

/-- C3: for every sequence of key events and every completion order of
the loads they issue, at most one mesh is resident in the scene for a
slot at any time; in particular the concrete off, on, off toggle with
all four loads completing leaves exactly one resident mesh. -/
theorem C3_single_resident :
    (∀ (cfg : Config) (evs : List Ev) (c : String),
      (residents (run (init cfg) evs) c).length ≤ 1) ∧
    residents (run (init cfgKey)
      [Ev.complete 0 assetU, Ev.complete 1 assetU, Ev.keydown "k",
        Ev.keyup "k", Ev.complete 2 assetU, Ev.complete 3 assetU])
      "k" = [3] := by
  constructor
  · intro cfg evs c
    have inv := invB_run_init cfg evs
    rw [inv.res c]
    cases slotMesh (run (init cfg) evs) c <;> simp [meshList]
  · with_unfolding_all decide

end ClaimThree

section ClaimFour

/-- C4: only the base load is issued at initialization; a secondary load
exists only once the base has resolved, at which point the base has been
placed with the computed frame, the configured rotation and shadow flag,
its animations bound, and the shared count at least one; every completed
secondary carries the stored frame and rotation; and the shared loaded
count equals the number of completed base and secondary loads. -/
theorem C4_base_first (cfg : Config) (evs : List Ev) :
    ((init cfg).pending.map Pending.kind = [LoadKind.base]) ∧
    (∀ r ∈ (run (init cfg) evs).issuedLog, r.kind.isSec = true →
      (run (init cfg) evs).baseDone = true) ∧
    ((run (init cfg) evs).baseDone = true →
      ∃ f, (run (init cfg) evs).frame = some f ∧
      ∃ e ∈ (run (init cfg) evs).placed, e.kind = LoadKind.base ∧
        e.applied = some f ∧
        e.rot = (run (init cfg) evs).modelRotation ∧
        e.shadow = (run (init cfg) evs).enabledShadow ∧
        (e.anims = true → e.mesh ∈ (run (init cfg) evs).mixers) ∧
        1 ≤ (run (init cfg) evs).loaded) ∧
    (∀ e ∈ (run (init cfg) evs).placed, e.kind.isSec = true →
      e.applied = (run (init cfg) evs).frame ∧
      e.rot = (run (init cfg) evs).modelRotation) ∧
    ((run (init cfg) evs).loaded =
      ((run (init cfg) evs).placed.filter (fun e => !e.kind.isKey)).length)
    := by
  have inv := invA_run_init cfg evs
  refine ⟨rfl, ?_, ?_, ?_, inv.count_eq⟩
  · intro r hr hs
    cases hbd : (run (init cfg) evs).baseDone with
    | true => rfl
    | false =>
      have := (inv.preBase hbd).2.2.2.2.2.2.1 r hr
      rw [hs] at this
      cases this
  · intro hbd
    obtain ⟨_, _, f, pre, e0, post, hfr, hplc, hk, ha, _, _, _, hld⟩ :=
      inv.postBase hbd
    have hmem : e0 ∈ (run (init cfg) evs).placed := by
      rw [hplc]
      exact List.mem_append.2 (Or.inr (List.mem_cons_self e0 post))
    exact ⟨f, hfr, e0, hmem, hk, ha, (inv.placed_rot e0 hmem).1,
      (inv.placed_rot e0 hmem).2, inv.anims_mixed e0 hmem, hld⟩
  · intro e he hs
    exact ⟨inv.secApplied e he hs, (inv.placed_rot e he).1⟩

/-- C4 witness: in a base-plus-secondary session, the secondary load in
the issued log implies the base had resolved, the base is placed with
the computed frame, and the completed secondary carries the same
frame. -/
theorem C4_base_first_witness :
    (run (init cfgSecs) [Ev.complete 0 assetU]).baseDone = true ∧
    (∃ f, (run (init cfgSecs) [Ev.complete 0 assetU]).frame = some f ∧
      ∃ e ∈ (run (init cfgSecs) [Ev.complete 0 assetU]).placed,
        e.kind = LoadKind.base ∧ e.applied = some f ∧
        e.rot = (run (init cfgSecs) [Ev.complete 0 assetU]).modelRotation ∧
        e.shadow = (run (init cfgSecs) [Ev.complete 0 assetU]).enabledShadow ∧
        (e.anims = true →
          e.mesh ∈ (run (init cfgSecs) [Ev.complete 0 assetU]).mixers) ∧
        1 ≤ (run (init cfgSecs) [Ev.complete 0 assetU]).loaded) ∧
    (∀ e ∈ (run (init cfgSecs)
        [Ev.complete 0 assetU, Ev.complete 1 assetU]).placed,
      e.kind.isSec = true →
      e.applied = (run (init cfgSecs)
        [Ev.complete 0 assetU, Ev.complete 1 assetU]).frame ∧
      e.rot = (run (init cfgSecs)
        [Ev.complete 0 assetU, Ev.complete 1 assetU]).modelRotation) :=
  ⟨(C4_base_first cfgSecs [Ev.complete 0 assetU]).2.1
      ⟨1, LoadKind.sec 1, "w", none⟩ (by with_unfolding_all decide)
      (by with_unfolding_all decide),
    (C4_base_first cfgSecs [Ev.complete 0 assetU]).2.2.1
      (by with_unfolding_all decide),
    (C4_base_first cfgSecs [Ev.complete 0 assetU, Ev.complete 1 assetU]
      ).2.2.2.1⟩

end ClaimFour

section ClaimFive

/-- C5: after the k-th successful base or secondary load the reported
percentage is round(100k over N) for the N configured paths, the reported
sequence is monotonically non-decreasing whatever the completion order,
the overlay is hidden exactly when the loaded count reaches N, and
exactly then the key manager's initial off-state load of every slot has
been issued. -/
theorem C5_progress (cfg : Config) (evs : List Ev) :
    ((run (init cfg) evs).progressLog =
      (List.range (run (init cfg) evs).loaded).map
        (fun k => round100 (k + 1) (run (init cfg) evs).total)) ∧
    List.Pairwise (· ≤ ·) (run (init cfg) evs).progressLog ∧
    ((run (init cfg) evs).overlayHidden = true ↔
      (run (init cfg) evs).loaded = (run (init cfg) evs).total) ∧
    ((run (init cfg) evs).initKeysDone = true ↔
      (run (init cfg) evs).overlayHidden = true) ∧
    ((run (init cfg) evs).initKeysDone = true →
      ∀ p ∈ (run (init cfg) evs).slots,
        ∃ r ∈ (run (init cfg) evs).issuedLog,
          r.kind = LoadKind.key p.1 ∧ r.path = p.2.offPath) := by
  have inv := invA_run_init cfg evs
  refine ⟨inv.progress_eq, ?_, ?_, ?_, inv.initKeys_issued⟩
  · rw [inv.progress_eq]
    rw [List.pairwise_map]
    have hlt : List.Pairwise (· < ·)
        (List.range (run (init cfg) evs).loaded) := List.pairwise_lt_range _
    exact hlt.imp (fun hij => round100_mono _ _ _ (by omega))
  · rw [inv.overlay_eq]
    exact decide_eq_true_iff
  · rw [inv.initKeys_eq]

/-- C5 witness: with one configured path and a key slot, completing the
base reaches one hundred percent, hides the overlay, and the slot's
off-state load is issued. -/
theorem C5_progress_witness :
    ∀ p ∈ (run (init cfgKey) [Ev.complete 0 assetU]).slots,
      ∃ r ∈ (run (init cfgKey) [Ev.complete 0 assetU]).issuedLog,
        r.kind = LoadKind.key p.1 ∧ r.path = p.2.offPath :=
  (C5_progress cfgKey [Ev.complete 0 assetU]).2.2.2.2
    (by with_unfolding_all decide)

end ClaimFive

section ClaimSix

lemma completeKey_baseDone (st : St) (r : Pending) (c : String) (a : Asset) :
    (completeKey st r c a).baseDone = st.baseDone := by
  cases hl : lookupSlot st.slots c with
  | none => simp [completeKey, hl]
  | some slot =>
    cases hm : slot.mesh <;>
      simp [completeKey, hl, keyPlace, keyRemove, hm]

lemma completeKey_pending (st : St) (r : Pending) (c : String) (a : Asset) :
    (completeKey st r c a).pending = st.pending := by
  cases hl : lookupSlot st.slots c with
  | none => simp [completeKey, hl]
  | some slot =>
    cases hm : slot.mesh <;>
      simp [completeKey, hl, keyPlace, keyRemove, hm]


lemma deadBase_step (st : St) (hd : DeadBase st) (e : Ev) :
    DeadBase (step st e) := by
  obtain ⟨hbd, hbs⟩ := hd
  cases e with
  | keydown c =>
    cases h : lookupSlot st.slots c with
    | none => exact ⟨by simpa [step, h] using hbd, by simpa [step, h] using hbs⟩
    | some slot =>
      by_cases hp : slot.pressed
      · exact ⟨by simpa [step, h, hp] using hbd,
          by simpa [step, h, hp] using hbs⟩
      · constructor
        · simpa [step, h, hp] using hbd
        · have : countBS (issue { st with slots := updateSlot st.slots c (fun s => { s with pressed := true }) } (LoadKind.key c) slot.onPath).pending = countBS st.pending := by
            rw [issue_pending, countBS_append_key _ _ (by rfl)]
          simpa [step, h, hp, this] using hbs
  | keyup c =>
    cases h : lookupSlot st.slots c with
    | none => exact ⟨by simpa [step, h] using hbd, by simpa [step, h] using hbs⟩
    | some slot =>
      by_cases hp : slot.pressed
      · constructor
        · simpa [step, h, hp] using hbd
        · have : countBS (issue { st with slots := updateSlot st.slots c (fun s => { s with pressed := false }) } (LoadKind.key c) slot.offPath).pending = countBS st.pending := by
            rw [issue_pending, countBS_append_key _ _ (by rfl)]
          simpa [step, h, hp, this] using hbs
      · exact ⟨by simpa [step, h, hp] using hbd,
          by simpa [step, h, hp] using hbs⟩
  | complete j a =>
    cases hfind : st.pending.find? (fun q => q.id = j) with
    | none =>
      exact ⟨by simpa [step, hfind] using hbd,
        by simpa [step, hfind] using hbs⟩
    | some r =>
      obtain ⟨hmem, _⟩ := find?_id_facts _ _ _ hfind
      cases hk : r.kind with
      | base =>
        exfalso
        have := countBS_pos_of_mem st.pending r hmem (by rw [hk]; rfl)
        omega
      | sec i =>
        exfalso
        have := countBS_pos_of_mem st.pending r hmem (by rw [hk]; rfl)
        omega
      | key c =>
        have hstep : step st (Ev.complete j a) = completeKey
            { st with pending := st.pending.filter (fun q => q.id ≠ j) }
            r c a := by
          simp [step, hfind, hk]
        constructor
        · rw [hstep, completeKey_baseDone]
          exact hbd
        · rw [hstep, completeKey_pending]
          show countBS (st.pending.filter (fun q => q.id ≠ j)) = 0
          have h3 := countBS_filter_le st.pending j
          omega
  | fail j =>
    constructor
    · simpa [step] using hbd
    · have h3 := countBS_filter_le st.pending j
      show countBS (st.pending.filter (fun q => q.id ≠ j)) = 0
      omega

lemma deadBase_run (st : St) (hd : DeadBase st) (evs : List Ev) :
    DeadBase (run st evs) := by
  induction evs generalizing st with
  | nil => exact hd
  | cons e rest ih => exact ih (step st e) (deadBase_step st hd e)

/-- C6: if the base load of paths[0] fails before ever resolving, then
whatever happens afterwards the Normalization Frame is never assigned,
no secondary load is ever issued, the loaded count stays zero and the
overlay never hides. -/
theorem C6_base_failure (cfg : Config) (evs1 evs2 : List Ev)
    (h : (run (init cfg) evs1).baseDone = false) :
    (run (run (init cfg) evs1) (Ev.fail 0 :: evs2)).baseDone = false ∧
    (run (run (init cfg) evs1) (Ev.fail 0 :: evs2)).frame = none ∧
    (run (run (init cfg) evs1) (Ev.fail 0 :: evs2)).frameWrites = 0 ∧
    (run (run (init cfg) evs1) (Ev.fail 0 :: evs2)).loaded = 0 ∧
    (run (run (init cfg) evs1) (Ev.fail 0 :: evs2)).overlayHidden = false ∧
    (∀ r ∈ (run (run (init cfg) evs1) (Ev.fail 0 :: evs2)).issuedLog,
      r.kind.isSec = false) := by
  have inv1 : InvA (run (init cfg) evs1) := invA_run_init cfg evs1
  have hbundle := inv1.preBase h
  have hdead2 : DeadBase (step (run (init cfg) evs1) (Ev.fail 0)) := by
    constructor
    · simpa [step] using h
    · show countBS ((run (init cfg) evs1).pending.filter
        (fun q => q.id ≠ 0)) = 0
      exact countBS_zero_of _ hbundle.2.2.2.2.2.2.2.2
  have hrun : run (run (init cfg) evs1) (Ev.fail 0 :: evs2) =
      run (step (run (init cfg) evs1) (Ev.fail 0)) evs2 := rfl
  have hdead : DeadBase (run (run (init cfg) evs1) (Ev.fail 0 :: evs2)) := by
    rw [hrun]
    exact deadBase_run _ hdead2 evs2
  have invF : InvA (run (run (init cfg) evs1) (Ev.fail 0 :: evs2)) := by
    rw [hrun]
    exact invA_run _ (invA_step _ inv1 (Ev.fail 0)) evs2
  obtain ⟨h1, h2, h3, h4, h5, h6, h7, h8, h9⟩ := invF.preBase hdead.1
  exact ⟨hdead.1, h1, h2, h3, h4, h7⟩

/-- C6 witness: the base fails at once; a later key press still issues
its key load, but the frame stays unset, nothing is counted and the
overlay stays visible. -/
theorem C6_base_failure_witness :
    (run (run (init cfgKey) []) (Ev.fail 0 ::
      [Ev.keydown "k", Ev.complete 1 assetU])).baseDone = false ∧
    (run (run (init cfgKey) []) (Ev.fail 0 ::
      [Ev.keydown "k", Ev.complete 1 assetU])).frame = none ∧
    (run (run (init cfgKey) []) (Ev.fail 0 ::
      [Ev.keydown "k", Ev.complete 1 assetU])).frameWrites = 0 ∧
    (run (run (init cfgKey) []) (Ev.fail 0 ::
      [Ev.keydown "k", Ev.complete 1 assetU])).loaded = 0 ∧
    (run (run (init cfgKey) []) (Ev.fail 0 ::
      [Ev.keydown "k", Ev.complete 1 assetU])).overlayHidden = false ∧
    (∀ r ∈ (run (run (init cfgKey) []) (Ev.fail 0 ::
      [Ev.keydown "k", Ev.complete 1 assetU])).issuedLog,
      r.kind.isSec = false) :=
  C6_base_failure cfgKey [] [Ev.keydown "k", Ev.complete 1 assetU]
    (by with_unfolding_all decide)

end ClaimSix

section ClaimSeven

/-- C7: key transitions are edge-triggered.  A key-down while the slot is
not pressed sets the flag and schedules exactly one load of the on path;
a key-down while pressed changes nothing; a key-up while pressed clears
the flag and schedules exactly one load of the off path; a key-up while
not pressed changes nothing. -/
theorem C7_edge_triggered (st : St) (c : String) (slot : Slot)
    (h : lookupSlot st.slots c = some slot) :
    (slot.pressed = false →
      (step st (Ev.keydown c)).issuedLog = st.issuedLog ++
        [⟨st.nextLoad, LoadKind.key c, slot.onPath, slot.mesh⟩] ∧
      (step st (Ev.keydown c)).pending = st.pending ++
        [⟨st.nextLoad, LoadKind.key c, slot.onPath, slot.mesh⟩] ∧
      lookupSlot (step st (Ev.keydown c)).slots c =
        some { slot with pressed := true }) ∧
    (slot.pressed = true → step st (Ev.keydown c) = st) ∧
    (slot.pressed = true →
      (step st (Ev.keyup c)).issuedLog = st.issuedLog ++
        [⟨st.nextLoad, LoadKind.key c, slot.offPath, slot.mesh⟩] ∧
      (step st (Ev.keyup c)).pending = st.pending ++
        [⟨st.nextLoad, LoadKind.key c, slot.offPath, slot.mesh⟩] ∧
      lookupSlot (step st (Ev.keyup c)).slots c =
        some { slot with pressed := false }) ∧
    (slot.pressed = false → step st (Ev.keyup c) = st) := by
  have hsnap1 : snapshotFor { st with slots := updateSlot st.slots c (fun s => { s with pressed := true }) } (LoadKind.key c) = slot.mesh := by
    show slotMesh _ c = slot.mesh
    unfold slotMesh
    show (lookupSlot (updateSlot st.slots c _) c).bind Slot.mesh = _
    rw [lookup_update_self, h]
    rfl
  have hsnap2 : snapshotFor { st with slots := updateSlot st.slots c (fun s => { s with pressed := false }) } (LoadKind.key c) = slot.mesh := by
    show slotMesh _ c = slot.mesh
    unfold slotMesh
    show (lookupSlot (updateSlot st.slots c _) c).bind Slot.mesh = _
    rw [lookup_update_self, h]
    rfl
  refine ⟨?_, ?_, ?_, ?_⟩
  · intro hp
    have hstep : step st (Ev.keydown c) = issue { st with slots := updateSlot st.slots c (fun s => { s with pressed := true }) } (LoadKind.key c) slot.onPath := by
      simp [step, h, hp]
    refine ⟨?_, ?_, ?_⟩
    · rw [hstep, issue_issuedLog, hsnap1]
    · rw [hstep, issue_pending, hsnap1]
    · rw [hstep, issue_slots]
      show lookupSlot (updateSlot st.slots c _) c = _
      rw [lookup_update_self, h]
      rfl
  · intro hp
    simp [step, h, hp]
  · intro hp
    have hstep : step st (Ev.keyup c) = issue { st with slots := updateSlot st.slots c (fun s => { s with pressed := false }) } (LoadKind.key c) slot.offPath := by
      simp [step, h, hp]
    refine ⟨?_, ?_, ?_⟩
    · rw [hstep, issue_issuedLog, hsnap2]
    · rw [hstep, issue_pending, hsnap2]
    · rw [hstep, issue_slots]
      show lookupSlot (updateSlot st.slots c _) c = _
      rw [lookup_update_self, h]
      rfl
  · intro hp
    simp [step, h, hp]

/-- C7 witness: in a session with one key slot, a first key-down issues
the on-path load once, a repeated key-down is a no-op, and the following
key-up issues the off-path load once. -/
theorem C7_edge_triggered_witness :
    ((step (run (init cfgKey) [Ev.complete 0 assetU, Ev.complete 1 assetU])
        (Ev.keydown "k")).issuedLog =
      (run (init cfgKey) [Ev.complete 0 assetU, Ev.complete 1 assetU]
        ).issuedLog ++ [⟨2, LoadKind.key "k", "B", some 1⟩]) ∧
    (step (run (init cfgKey) [Ev.complete 0 assetU, Ev.complete 1 assetU,
        Ev.keydown "k"]) (Ev.keydown "k") =
      run (init cfgKey) [Ev.complete 0 assetU, Ev.complete 1 assetU,
        Ev.keydown "k"]) ∧
    ((step (run (init cfgKey) [Ev.complete 0 assetU, Ev.complete 1 assetU,
        Ev.keydown "k"]) (Ev.keyup "k")).issuedLog =
      (run (init cfgKey) [Ev.complete 0 assetU, Ev.complete 1 assetU,
        Ev.keydown "k"]).issuedLog ++
        [⟨3, LoadKind.key "k", "A", some 1⟩]) ∧
    (step (run (init cfgKey) [Ev.complete 0 assetU, Ev.complete 1 assetU])
        (Ev.keyup "k") =
      run (init cfgKey) [Ev.complete 0 assetU, Ev.complete 1 assetU]) := by
  refine ⟨?_, ?_, ?_, ?_⟩
  · exact (C7_edge_triggered
      (run (init cfgKey) [Ev.complete 0 assetU, Ev.complete 1 assetU]) "k"
      ⟨"A", "B", some 1, false⟩ (by with_unfolding_all decide)).1
      (by with_unfolding_all decide) |>.1
  · exact (C7_edge_triggered
      (run (init cfgKey) [Ev.complete 0 assetU, Ev.complete 1 assetU,
        Ev.keydown "k"]) "k"
      ⟨"A", "B", some 1, true⟩ (by with_unfolding_all decide)).2.1
      (by with_unfolding_all decide)
  · exact (C7_edge_triggered
      (run (init cfgKey) [Ev.complete 0 assetU, Ev.complete 1 assetU,
        Ev.keydown "k"]) "k"
      ⟨"A", "B", some 1, true⟩ (by with_unfolding_all decide)).2.2.1
      (by with_unfolding_all decide) |>.1
  · exact (C7_edge_triggered
      (run (init cfgKey) [Ev.complete 0 assetU, Ev.complete 1 assetU]) "k"
      ⟨"A", "B", some 1, false⟩ (by with_unfolding_all decide)).2.2.2
      (by with_unfolding_all decide)

end ClaimSeven

section ClaimEight


/-- C8 counterexample: with overlapping key loads the removal performed
by a completing load is not the mesh that was resident when that load
was issued.  A key-down load and a key-up load are both in flight; the
key-up load was issued while mesh 1 was resident, but by the time it
completes the key-down load has installed mesh 2, and mesh 2 is what it
removes. -/
theorem C8_capture_counterexample :
    ¬ CaptureAtIssue (run (init cfgKey)
      [Ev.complete 0 assetU, Ev.complete 1 assetU, Ev.keydown "k",
        Ev.keyup "k", Ev.complete 2 assetU, Ev.complete 3 assetU]) := by
  with_unfolding_all decide

/-- C8 amended: the previous-mesh reference is read at load completion,
not captured at issue: completing a pending key load removes exactly the
slot mesh resident at completion time (the removal happens only then,
after the load was issued), installs the fresh mesh as the new resident,
and issuing a load on a key edge removes nothing from the scene, so the
old mesh stays resident until the new asset arrives. -/
theorem C8_remove_at_completion (st : St) (j : Nat) (a : Asset)
    (r : Pending) (c : String) (slot : Slot) (p : Nat)
    (h1 : st.pending.find? (fun q => q.id = j) = some r)
    (h2 : r.kind = LoadKind.key c)
    (h3 : lookupSlot st.slots c = some slot)
    (h4 : slot.mesh = some p)
    (h5 : p < st.nextMesh) :
    (step st (Ev.complete j a)).removalLog =
      st.removalLog ++ [(r.id, p)] ∧
    (∀ o ∈ (step st (Ev.complete j a)).scene, o.id ≠ p) ∧
    lookupSlot (step st (Ev.complete j a)).slots c =
      some { slot with mesh := some st.nextMesh } ∧
    (⟨st.nextMesh, LoadKind.key c⟩ : SceneObj) ∈
      (step st (Ev.complete j a)).scene ∧
    (∀ c2, (step st (Ev.keydown c2)).scene = st.scene) ∧
    (∀ c2, (step st (Ev.keyup c2)).scene = st.scene) := by
  have hstep : step st (Ev.complete j a) = completeKey
      { st with pending := st.pending.filter (fun q => q.id ≠ j) }
      r c a := by
    simp [step, h1, h2]
  have h3' : lookupSlot ({ st with pending := st.pending.filter (fun q => q.id ≠ j) } : St).slots c = some slot := h3
  have hck : completeKey
      { st with pending := st.pending.filter (fun q => q.id ≠ j) } r c a =
      keyPlace (keyRemove
        { st with pending := st.pending.filter (fun q => q.id ≠ j) }
        r slot) r c a := by
    rw [completeKey, h3']
  have hkr : keyRemove
      { st with pending := st.pending.filter (fun q => q.id ≠ j) } r slot =
      { st with pending := st.pending.filter (fun q => q.id ≠ j), scene := st.scene.filter (fun o => o.id ≠ p), removalLog := st.removalLog ++ [(r.id, p)] } := by
    rw [keyRemove, h4]
  refine ⟨?_, ?_, ?_, ?_, ?_, ?_⟩
  · rw [hstep, hck, hkr]
    rfl
  · rw [hstep, hck, hkr]
    intro o ho
    rcases List.mem_append.1 ho with ho | ho
    · have := (List.mem_filter.1 ho).2
      simpa using this
    · rw [List.mem_singleton] at ho
      subst ho
      show st.nextMesh ≠ p
      omega
  · rw [hstep, hck, hkr]
    show lookupSlot (updateSlot st.slots c _) c = _
    rw [lookup_update_self, h3]
    rfl
  · rw [hstep, hck, hkr]
    exact List.mem_append.2 (Or.inr (List.mem_singleton.2 rfl))
  · intro c2
    cases hl : lookupSlot st.slots c2 with
    | none => simp [step, hl]
    | some s2 =>
      by_cases hp : s2.pressed <;> simp [step, hl, hp]
  · intro c2
    cases hl : lookupSlot st.slots c2 with
    | none => simp [step, hl]
    | some s2 =>
      by_cases hp : s2.pressed <;> simp [step, hl, hp]

/-- C8 amended witness: in the counterexample session, completing the
key-up load removes mesh 2, the mesh resident at completion time, and
installs mesh 3. -/
theorem C8_remove_at_completion_witness :
    (step (run (init cfgKey) [Ev.complete 0 assetU, Ev.complete 1 assetU,
        Ev.keydown "k", Ev.keyup "k", Ev.complete 2 assetU])
      (Ev.complete 3 assetU)).removalLog =
      (run (init cfgKey) [Ev.complete 0 assetU, Ev.complete 1 assetU,
        Ev.keydown "k", Ev.keyup "k", Ev.complete 2 assetU]).removalLog ++
        [(3, 2)] ∧
    (∀ o ∈ (step (run (init cfgKey) [Ev.complete 0 assetU,
        Ev.complete 1 assetU, Ev.keydown "k", Ev.keyup "k",
        Ev.complete 2 assetU]) (Ev.complete 3 assetU)).scene, o.id ≠ 2) ∧
    lookupSlot (step (run (init cfgKey) [Ev.complete 0 assetU,
        Ev.complete 1 assetU, Ev.keydown "k", Ev.keyup "k",
        Ev.complete 2 assetU]) (Ev.complete 3 assetU)).slots "k" =
      some ⟨"A", "B", some 3, false⟩ ∧
    (⟨3, LoadKind.key "k"⟩ : SceneObj) ∈
      (step (run (init cfgKey) [Ev.complete 0 assetU, Ev.complete 1 assetU,
        Ev.keydown "k", Ev.keyup "k", Ev.complete 2 assetU])
        (Ev.complete 3 assetU)).scene := by
  have h := C8_remove_at_completion
    (run (init cfgKey) [Ev.complete 0 assetU, Ev.complete 1 assetU,
      Ev.keydown "k", Ev.keyup "k", Ev.complete 2 assetU])
    3 assetU ⟨3, LoadKind.key "k", "A", some 1⟩ "k"
    ⟨"A", "B", some 2, false⟩ 2
    (by with_unfolding_all decide) (by with_unfolding_all decide)
    (by with_unfolding_all decide) (by with_unfolding_all decide)
    (by with_unfolding_all decide)
  exact ⟨h.1, h.2.1, h.2.2.1, h.2.2.2.1⟩

end ClaimEight

section ClaimNine

/-- C9: when the base bounding box is degenerate (maxDim zero), the
computed scale 2 divided by maxDim is non-finite and every offset
component is non-finite, with no guard anywhere; and in a run whose base
asset is degenerate the non-finite frame is stored and applied as-is to
the subsequent secondary load. -/
theorem C9_degenerate_scale :
    (∀ (s : Vec3J) (cx cy cz : ℚ), maxDim3 s = .fin 0 →
      (computeFrame ⟨s, ⟨.fin cx, .fin cy, .fin cz⟩⟩).1 = .posInf ∧
      (computeFrame ⟨s, ⟨.fin cx, .fin cy, .fin cz⟩⟩).1.isFinite = false ∧
      (computeFrame ⟨s, ⟨.fin cx, .fin cy, .fin cz⟩⟩).2.x.isFinite = false ∧
      (computeFrame ⟨s, ⟨.fin cx, .fin cy, .fin cz⟩⟩).2.y.isFinite = false ∧
      (computeFrame ⟨s, ⟨.fin cx, .fin cy, .fin cz⟩⟩).2.z.isFinite = false) ∧
    ((run (init cfgSecs) [Ev.complete 0 assetDeg, Ev.complete 1 assetU]
      ).frame = some (.posInf, ⟨.nan, .nan, .nan⟩) ∧
      (JSNum.posInf).isFinite = false ∧
      ∃ e ∈ (run (init cfgSecs)
        [Ev.complete 0 assetDeg, Ev.complete 1 assetU]).placed,
        e.kind = LoadKind.sec 1 ∧
        e.applied = some (.posInf, ⟨.nan, .nan, .nan⟩)) := by
  constructor
  · intro s cx cy cz hm
    have hscale : (computeFrame ⟨s, ⟨.fin cx, .fin cy, .fin cz⟩⟩).1 =
        .posInf := by
      show divJ (.fin 2) (maxDim3 s) = _
      rw [hm]
      show (if (0 : ℚ) = 0 then (if (2 : ℚ) = 0 then JSNum.nan
        else if (0 : ℚ) < 2 then JSNum.posInf else JSNum.negInf)
        else JSNum.fin (2 / 0)) = JSNum.posInf
      norm_num
    have hmul : ∀ q : ℚ, (mulJ (.fin q) .posInf).isFinite = false := by
      intro q
      show (if q = 0 then JSNum.nan else if 0 < q then JSNum.posInf
        else JSNum.negInf).isFinite = false
      by_cases h0 : q = 0
      · rw [if_pos h0]
        rfl
      · rw [if_neg h0]
        by_cases h1 : 0 < q
        · rw [if_pos h1]
          rfl
        · rw [if_neg h1]
          rfl
    refine ⟨hscale, by rw [hscale]; rfl, ?_, ?_, ?_⟩
    · show (mulJ (.fin cx) (computeFrame ⟨s, ⟨.fin cx, .fin cy, .fin cz⟩⟩).1
        ).isFinite = false
      rw [hscale]
      exact hmul cx
    · show (mulJ (.fin cy) (computeFrame ⟨s, ⟨.fin cx, .fin cy, .fin cz⟩⟩).1
        ).isFinite = false
      rw [hscale]
      exact hmul cy
    · show (mulJ (.fin cz) (computeFrame ⟨s, ⟨.fin cx, .fin cy, .fin cz⟩⟩).1
        ).isFinite = false
      rw [hscale]
      exact hmul cz
  · refine ⟨by with_unfolding_all decide, rfl, ?_⟩
    with_unfolding_all decide

/-- C9 witness: the degenerate box of the zero-size asset yields the
non-finite scale and offsets. -/
theorem C9_degenerate_scale_witness :
    (computeFrame ⟨⟨.fin 0, .fin 0, .fin 0⟩,
      ⟨.fin 1, .fin 0, .fin (-2)⟩⟩).1 = .posInf ∧
    (computeFrame ⟨⟨.fin 0, .fin 0, .fin 0⟩,
      ⟨.fin 1, .fin 0, .fin (-2)⟩⟩).1.isFinite = false ∧
    (computeFrame ⟨⟨.fin 0, .fin 0, .fin 0⟩,
      ⟨.fin 1, .fin 0, .fin (-2)⟩⟩).2.x.isFinite = false ∧
    (computeFrame ⟨⟨.fin 0, .fin 0, .fin 0⟩,
      ⟨.fin 1, .fin 0, .fin (-2)⟩⟩).2.y.isFinite = false ∧
    (computeFrame ⟨⟨.fin 0, .fin 0, .fin 0⟩,
      ⟨.fin 1, .fin 0, .fin (-2)⟩⟩).2.z.isFinite = false :=
  C9_degenerate_scale.1 ⟨.fin 0, .fin 0, .fin 0⟩ 1 0 (-2)
    (by with_unfolding_all decide)

end ClaimNine

section ClaimTen

/-- C10: a failed key-swap load leaves the slot mesh, the scene, the
mixers, the placements and the counters untouched (the error branch only
logs and consumes the request); yet the pressed flag was already toggled
on the key edge before the load was issued, so after a failed on-load
the slot can be pressed while the resident mesh is still the off
variant. -/
theorem C10_key_failure :
    (∀ (st : St) (j : Nat),
      (step st (Ev.fail j)).scene = st.scene ∧
      (step st (Ev.fail j)).mixers = st.mixers ∧
      (step st (Ev.fail j)).slots = st.slots ∧
      (step st (Ev.fail j)).loaded = st.loaded ∧
      (step st (Ev.fail j)).frame = st.frame ∧
      (step st (Ev.fail j)).placed = st.placed ∧
      (step st (Ev.fail j)).removalLog = st.removalLog) ∧
    (∃ s, lookupSlot (run (init cfgKey)
        [Ev.complete 0 assetU, Ev.complete 1 assetU, Ev.keydown "k",
          Ev.fail 2]).slots "k" = some s ∧
      s.pressed = true ∧ s.mesh = some 1 ∧
      ∃ e ∈ (run (init cfgKey)
        [Ev.complete 0 assetU, Ev.complete 1 assetU, Ev.keydown "k",
          Ev.fail 2]).placed,
        e.mesh = 1 ∧ e.path = "A" ∧ e.kind = LoadKind.key "k") := by
  constructor
  · intro st j
    exact ⟨rfl, rfl, rfl, rfl, rfl, rfl, rfl⟩
  · with_unfolding_all decide

end ClaimTen

end GLB
